import Mathlib

/-!
# irbasis.hpp: the dense array container and the basis evaluator

A shallow embedding of `src/c++/irbasis.hpp`.

Conventions of the embedding.

* `int` values are integers; every place where the source converts between
  `int` and `std::size_t` goes through `to_size_t` (reduction modulo `2^64`,
  LP64) or `to_int` (reduction to the signed 32-bit range).
* `assert` is modelled as compiled in: a failing assertion is the outcome
  `Err.assertion_failed`.  A C++ exception is an `Err` outcome as well.
* `double` is modelled by an arbitrary linearly ordered ring `R` (exact
  arithmetic); the evaluators only compare with `0`, negate and multiply by
  `1` or `-1`.
* A `multi_array` holds a pointer `p_data_` to a `std::vector<T>` on the free
  store.  The free store is a `Heap`: a list of cells addressed by position.
  `delete` marks a cell as deleted and destroys its elements.  The one place
  where the source uses a vector it has deleted is line 73 of `operator=` (the
  pointer is not reset after the `delete` of line 65): that use after free is
  `Err.undefined_behaviour`.  The nine member assignments of the constructor
  of `basis` (lines 278-298) all take that path.  No other code of the source
  keeps a pointer to a deleted vector (no view is ever created), and the
  accessors of the model do not consult the mark.
* The member `_interpolate` is declared in the source without a body.  The
  evaluators take it as a parameter `interp`; where a statement depends on
  what it does, `spec_interpolate` models it from section 4.5 of the
  specification.
* A program over arrays is a list of `Stmt`, run on a `World` (the arrays
  constructed so far and the free store).
-/

namespace irbasis

/-! ## Outcomes -/

/-- The ways an operation of the source can fail. -/
inductive Err
  /-- An `assert(...)` does not hold. -/
  | assertion_failed
  /-- The source throws `std::runtime_error` (resize of a view). -/
  | runtime_error
  /-- The standard vector is asked for more than `max_size()` elements. -/
  | length_error
  /-- Null or wild pointer, use of a deleted vector, signed overflow, write
  past the end of a buffer. -/
  | undefined_behaviour
  /-- The `DomainError` of the specification: a coordinate outside every
  section.  No code of the source raises it; it is raised by the interpolation
  routine modelled from the specification. -/
  | domain_error
deriving DecidableEq, Repr

deriving instance DecidableEq for Except

/-! ## Machine integers -/

/-- Conversion of an `int` to `std::size_t` (64 bit). -/
def to_size_t (z : Int) : Nat := (z % 18446744073709551616).toNat

/-- Conversion of a `std::size_t` to `int` (32 bit, two's complement). -/
def to_int (n : Nat) : Int :=
  if n % 4294967296 < 2147483648 then ((n % 4294967296 : Nat) : Int)
  else ((n % 4294967296 : Nat) : Int) - 4294967296

/-- The values of type `int`. -/
def in_int_range (z : Int) : Prop := -2147483648 ≤ z ∧ z < 2147483648

instance (z : Int) : Decidable (in_int_range z) := by
  unfold in_int_range; infer_instance

/-- An upper bound of `std::vector<T>::max_size()` (`PTRDIFF_MAX`).  Every
element count the source passes to a vector comes from an `int`, so it is
either below `2^31` or at least `2^64 - 2^31`; the exact bound is immaterial. -/
def max_size : Nat := 9223372036854775807

/-! ## The free store of vectors -/

/-- One `std::vector<T>` object created with `new`. -/
structure vector_cell (T : Type) where
  /-- Set by `delete`. -/
  deleted : Bool
  /-- The elements of the vector. -/
  elems : List T
deriving DecidableEq, Repr

/-- The vectors allocated so far; a pointer is a position in this list. -/
abbrev Heap (T : Type) := List (vector_cell T)

/-- The expression `new std::vector<T>(...)` with initial contents `v`. -/
def Heap.new_vector {T : Type} (h : Heap T) (v : List T) : Nat × Heap T :=
  (h.length, h ++ [⟨false, v⟩])

/-- The statement `delete p`: the vector is destroyed, its cell marked. -/
def Heap.delete {T : Type} (h : Heap T) (p : Nat) : Heap T :=
  h.set p ⟨true, []⟩

/-- Replace the elements of the vector at `p`, keeping its mark. -/
def Heap.store {T : Type} (h : Heap T) (p : Nat) (v : List T) : Heap T :=
  match h[p]? with
  | some c => h.set p ⟨c.deleted, v⟩
  | none => h

/-- The vector a pointer refers to, with its address, when the pointer is not
null and was obtained from `new`. -/
def Heap.deref {T : Type} (h : Heap T) (p : Option Nat) : Except Err (Nat × List T) :=
  match p with
  | none => .error .undefined_behaviour
  | some a =>
    match h[a]? with
    | some c => .ok (a, c.elems)
    | none => .error .undefined_behaviour

/-- The call `v.resize(n)` of `std::vector`: the first `n` elements are kept
and new elements are value-initialised. -/
def vector_resize {T : Type} [Zero T] (v : List T) (n : Nat) : List T :=
  v.take n ++ List.replicate (n - v.length) 0

/-! ## multi_array -/

/-- The class `internal::multi_array<T, DIM>`: its three data members. -/
structure multi_array (T : Type) (DIM : Nat) where
  /-- Member `bool owner_`. -/
  owner_ : Bool
  /-- Member `std::vector<T>* p_data_`; `none` is `NULL`. -/
  p_data_ : Option Nat
  /-- Member `std::size_t extents_[DIM]`. -/
  extents_ : Fin DIM → Nat

namespace multi_array

variable {T : Type} {DIM : Nat}

/-- The default constructor (line 23).  It leaves `extents_` uninitialised:
`junk` stands for the indeterminate contents. -/
def init0 (junk : Fin DIM → Nat) (h : Heap T) : multi_array T DIM × Heap T :=
  let r := h.new_vector []
  (⟨true, some r.1, junk⟩, r.2)

/-- The expression `new std::vector<T>(n)` for an `int` expression whose
mathematical value is `n`: signed overflow is undefined, the conversion to
`size_t` of a negative count exceeds `max_size()`. -/
def new_sized [Zero T] (n : Int) (h : Heap T) : Except Err (Nat × Heap T) :=
  if ¬ in_int_range n then .error .undefined_behaviour
  else if max_size < to_size_t n then .error .length_error
  else .ok (h.new_vector (List.replicate (to_size_t n) 0))

/-- The constructor `multi_array(int N1)` (line 26); `assert(DIM == 1)` holds
by the type. -/
def init1 [Zero T] (N1 : Int) (h : Heap T) : Except Err (multi_array T 1 × Heap T) :=
  match new_sized N1 h with
  | .error e => .error e
  | .ok r => .ok (⟨true, some r.1, ![to_size_t N1]⟩, r.2)

/-- The constructor `multi_array(int N1, int N2)` (line 31). -/
def init2 [Zero T] (N1 N2 : Int) (h : Heap T) : Except Err (multi_array T 2 × Heap T) :=
  match new_sized (N1 * N2) h with
  | .error e => .error e
  | .ok r => .ok (⟨true, some r.1, ![to_size_t N1, to_size_t N2]⟩, r.2)

/-- The constructor `multi_array(int N1, int N2, int N3)` (line 37); the
`int` product is evaluated left to right. -/
def init3 [Zero T] (N1 N2 N3 : Int) (h : Heap T) :
    Except Err (multi_array T 3 × Heap T) :=
  if ¬ in_int_range (N1 * N2) then .error .undefined_behaviour
  else
    match new_sized (N1 * N2 * N3) h with
    | .error e => .error e
    | .ok r => .ok (⟨true, some r.1, ![to_size_t N1, to_size_t N2, to_size_t N3]⟩, r.2)

/-- The assignment `operator=` (lines 58-80).  After `delete this->p_data_`
(line 65) the pointer is not reset, so the test `this->p_data_ == NULL` of
line 70 only succeeds when the pointer was null from the start; when it was
not, and `other` is an owner, line 73 copy-assigns into the vector that
line 65 has deleted, a use after free. -/
def assign (this other : multi_array T DIM) (h : Heap T) :
    Except Err (multi_array T DIM × Heap T) :=
  -- lines 59-62: owner_ and extents_ are copied
  -- lines 64-66
  let h1 := match this.p_data_ with
    | some p => h.delete p
    | none => h
  if other.owner_ then
    match this.p_data_ with
    | some _ =>
      -- line 70 finds the pointer not null; line 73 writes through it into
      -- the deleted vector
      .error .undefined_behaviour
    | none =>
      -- lines 70-72
      let r := h1.new_vector []
      -- line 73: *(this->p_data_) = *(other.p_data_)
      match r.2.deref other.p_data_ with
      | .error e => .error e
      | .ok src => .ok (⟨other.owner_, some r.1, other.extents_⟩, r.2.store r.1 src.2)
  else
    -- line 76
    .ok (⟨other.owner_, other.p_data_, other.extents_⟩, h1)

/-- The copy constructor (lines 48-50): `p_data_` starts as `NULL`, then
`*this = other`, which overwrites `owner_` and `extents_` before any read;
for an owner `other` the assignment allocates a new vector. -/
def copy (other : multi_array T DIM) (h : Heap T) :
    Except Err (multi_array T DIM × Heap T) :=
  assign ⟨other.owner_, none, other.extents_⟩ other h

/-- The destructor (lines 52-56). -/
def destroy (a : multi_array T DIM) (h : Heap T) : Heap T :=
  if a.owner_ then
    match a.p_data_ with
    | some p => h.delete p
    | none => h
  else h

/-- The member `extent(int i)` (lines 82-86). -/
def extent (a : multi_array T DIM) (i : Int) : Except Err Nat :=
  if h : 0 ≤ i ∧ i < DIM then .ok (a.extents_ ⟨i.toNat, by omega⟩)
  else .error .assertion_failed

/-- The call `std::accumulate(dims, dims + DIM, 1, std::multiplies<std::size_t>())`
of line 93: the accumulator has the type of the initial value `1`, which is
`int`; each step multiplies in `size_t` and converts the product back. -/
def accumulate (dims : List Nat) (init : Int) : Int :=
  dims.foldl (fun acc d => to_int ((to_size_t acc * d) % 18446744073709551616)) init

/-- The member `resize(std::size_t* dims)` (lines 88-98).  The result carries
the state of the array and of the free store after the call, also when the
call throws. -/
def resize [Zero T] (a : multi_array T DIM) (dims : Fin DIM → Nat) (h : Heap T) :
    Except Err Unit × multi_array T DIM × Heap T :=
  if !a.owner_ then (.error .runtime_error, a, h)
  else
    let tot_size := to_size_t (accumulate (List.ofFn dims) 1)
    match h.deref a.p_data_ with
    | .error e => (.error e, a, h)
    | .ok v =>
      if max_size < tot_size then (.error .length_error, a, h)
      else (.ok (), ⟨a.owner_, a.p_data_, dims⟩, h.store v.1 (vector_resize v.2 tot_size))

/-- The member `num_elements()` (lines 106-108). -/
def num_elements (a : multi_array T DIM) (h : Heap T) : Except Err Nat :=
  (h.deref a.p_data_).map (fun v => v.2.length)

/-- The member `view()` (lines 110-112). -/
def view (a : multi_array T DIM) : Bool := !a.owner_

/-- The assertion `idx >= 0 && idx < p_data_->size()` followed by the
address computation `(*p_data_)[idx]`, shared by all six accessors. -/
def checked (a : multi_array T DIM) (h : Heap T) (idx : Int) : Except Err Nat :=
  match h.deref a.p_data_ with
  | .error e => .error e
  | .ok v =>
    if 0 ≤ idx ∧ to_size_t idx < v.2.length then .ok idx.toNat
    else .error .assertion_failed

/-- The flat offset of `operator()(int i)` (lines 118-130): `int idx = i`. -/
def idx1 (a : multi_array T 1) (h : Heap T) (i : Int) : Except Err Nat :=
  a.checked h i

/-- The flat offset of `operator()(int i, int j)` (lines 132-144):
`int idx = extents_[1] * i + j`, evaluated in `size_t`. -/
def idx2 (a : multi_array T 2) (h : Heap T) (i j : Int) : Except Err Nat :=
  a.checked h (to_int ((a.extents_ 1 * to_size_t i + to_size_t j) % 18446744073709551616))

/-- The flat offset of `operator()(int i, int j, int k)` (lines 146-158):
`int idx = (i * extents_[1] + j) * extents_[2] + k`, evaluated in `size_t`. -/
def idx3 (a : multi_array T 3) (h : Heap T) (i j k : Int) : Except Err Nat :=
  a.checked h (to_int (((to_size_t i * a.extents_ 1 + to_size_t j) * a.extents_ 2
    + to_size_t k) % 18446744073709551616))

/-- Read of the element at a checked flat offset. -/
def read (a : multi_array T DIM) (h : Heap T) (o : Except Err Nat) : Except Err T :=
  match o, h.deref a.p_data_ with
  | .ok n, .ok v =>
    match v.2[n]? with
    | some x => .ok x
    | none => .error .undefined_behaviour
  | .error e, _ => .error e
  | _, .error e => .error e

/-- Write through the reference returned for a checked flat offset. -/
def write (a : multi_array T DIM) (h : Heap T) (o : Except Err Nat) (x : T) :
    Except Err (Heap T) :=
  match o, h.deref a.p_data_ with
  | .ok n, .ok v => .ok (h.store v.1 (v.2.set n x))
  | .error e, _ => .error e
  | _, .error e => .error e

/-- The value of `a(i)`. -/
def at1 (a : multi_array T 1) (h : Heap T) (i : Int) : Except Err T :=
  a.read h (a.idx1 h i)

/-- The value of `a(i, j)`. -/
def at2 (a : multi_array T 2) (h : Heap T) (i j : Int) : Except Err T :=
  a.read h (a.idx2 h i j)

/-- The value of `a(i, j, k)`. -/
def at3 (a : multi_array T 3) (h : Heap T) (i j k : Int) : Except Err T :=
  a.read h (a.idx3 h i j k)

/-- The statement `a(i) = x`. -/
def set1 (a : multi_array T 1) (h : Heap T) (i : Int) (x : T) : Except Err (Heap T) :=
  a.write h (a.idx1 h i) x

/-- The statement `a(i, j) = x`. -/
def set2 (a : multi_array T 2) (h : Heap T) (i j : Int) (x : T) : Except Err (Heap T) :=
  a.write h (a.idx2 h i j) x

/-- The statement `a(i, j, k) = x`. -/
def set3 (a : multi_array T 3) (h : Heap T) (i j k : Int) (x : T) :
    Except Err (Heap T) :=
  a.write h (a.idx3 h i j k) x

/-- What a callee sees of an array passed by reference: its extents and
the elements of its vector. -/
def snapshot (a : multi_array T DIM) (h : Heap T) : Except Err ((Fin DIM → Nat) × List T) :=
  match h.deref a.p_data_ with
  | .error e => .error e
  | .ok v => .ok (a.extents_, v.2)

end multi_array

/-! ## The HDF5 file -/

/-- A dataset of the file: its extents and its payload in row-major order. -/
structure Dataset (T : Type) where
  /-- The extents reported by `H5Sget_simple_extent_dims`. -/
  dims : List Nat
  /-- The values `H5Dread` delivers. -/
  payload : List T
  /-- A dataset holds as many values as its extents say. -/
  size_eq : payload.length = dims.prod

/-- The datasets of one basis family (`/ulx/...` or `/vly/...`). -/
structure FamilyStore (R : Type) where
  /-- Dataset `data`. -/
  data : Dataset R
  /-- Scalar `np`. -/
  np : Int
  /-- Scalar `ns`. -/
  ns : Int
  /-- Dataset `section_edges`. -/
  section_edges : Dataset Int
  /-- Dataset `ref/data`. -/
  ref_data : Dataset R
  /-- Dataset `ref/max`. -/
  ref_max : Dataset R

/-- The datasets the constructor reads below the path given to it.  The
source does not examine the return codes of the HDF5 calls; a file that lacks
one of the datasets is outside the model. -/
structure Store (R : Type) where
  /-- Scalar `/info/Lambda`. -/
  info_Lambda : R
  /-- Scalar `/info/dim`. -/
  info_dim : Int
  /-- Scalar `/info/statistics`. -/
  info_statistics : Int
  /-- Dataset `/sl`. -/
  sl : Dataset R
  /-- Group `/ulx`. -/
  ulx : FamilyStore R
  /-- Group `/vly`. -/
  vly : FamilyStore R

namespace internal

variable {T : Type}

/-- The call `H5Dread(dataset, ..., a.origin())`: the payload is written at
the start of the buffer of `a`; a buffer that is too short is overrun. -/
def h5d_read {DIM : Nat} (a : multi_array T DIM) (payload : List T) (h : Heap T) :
    Except Err (Heap T) :=
  match h.deref a.p_data_ with
  | .error e => .error e
  | .ok v =>
    if payload.length ≤ v.2.length then .ok (h.store v.1 (payload ++ v.2.drop payload.length))
    else .error .undefined_behaviour

/-- The functions `load_multi_array<DIM>` (lines 206-227) and
`load_multi_iarray<DIM>` (lines 230-250), which differ in the element type
only.  A dataset of a rank above `DIM` overruns the local `dims` before the
assertion is reached.  The local copy `b` is created and destroyed; the local
vector `data` has no effect; the local `a` is the returned object. -/
def load_multi_array [Zero T] (DIM : Nat) (ds : Dataset T) (h : Heap T) :
    Except Err (multi_array T DIM × Heap T) :=
  -- H5Sget_simple_extent_dims writes one extent for each dimension of the
  -- dataset into the DIM entries of dims
  if DIM < ds.dims.length then .error .undefined_behaviour
  -- assert(n_dims == DIM)
  else if ds.dims.length ≠ DIM then .error .assertion_failed
  else
    let extents : Fin DIM → Nat := fun i => ds.dims.getD i.val 0
    -- multi_array<double, DIM> a; a.resize(&extents[0]);
    let a0 := multi_array.init0 (fun _ => 0) h
    match a0.1.resize extents a0.2 with
    | (.error e, _, _) => .error e
    | (.ok (), a, h1) =>
      match h5d_read a ds.payload h1 with
      | .error e => .error e
      | .ok h2 =>
        -- multi_array<double, DIM> b = a;
        match a.copy h2 with
        | .error e => .error e
        | .ok b => .ok (a, b.1.destroy b.2)

/-- An assignment `member = load_multi_array<DIM>(file, name)` of the
constructor: the loaded temporary is assigned with `operator=`, then
destroyed. -/
def load_into [Zero T] {DIM : Nat} (member : multi_array T DIM) (ds : Dataset T)
    (h : Heap T) : Except Err (multi_array T DIM × Heap T) :=
  match load_multi_array DIM ds h with
  | .error e => .error e
  | .ok tmp =>
    match member.assign tmp.1 tmp.2 with
    | .error e => .error e
    | .ok r => .ok (r.1, tmp.1.destroy r.2)

end internal

/-! ## The basis -/

/-- The struct `func` (lines 253-258). -/
structure func (R : Type) where
  /-- Member `section_edges`. -/
  section_edges : multi_array Int 1
  /-- Member `data`. -/
  data : multi_array R 3
  /-- Member `np`. -/
  np : Int
  /-- Member `ns`. -/
  ns : Int

/-- The struct `ref` (lines 260-263). -/
structure ref (R : Type) where
  /-- Member `data`. -/
  data : multi_array R 2
  /-- Member `max`. -/
  max : multi_array R 1

/-- The data members of the class `basis` (lines 335-342). -/
structure basis (R : Type) where
  /-- Member `Lambda_`. -/
  Lambda_ : R
  /-- Member `dim_`. -/
  dim_ : Int
  /-- Member `statistics_`. -/
  statistics_ : String
  /-- Member `sl_`. -/
  sl_ : multi_array R 1
  /-- Member `ulx_`. -/
  ulx_ : func R
  /-- Member `vly_`. -/
  vly_ : func R
  /-- Member `ref_ulx_`. -/
  ref_ulx_ : ref R
  /-- Member `ref_vly_`. -/
  ref_vly_ : ref R

/-- The free store as a basis sees it: the vectors of `double` and the
vectors of `int`. -/
structure Mem (R : Type) where
  /-- The vectors of `double`. -/
  d : Heap R
  /-- The vectors of `int`. -/
  i : Heap Int

namespace basis

variable {R : Type}

/-- The state at the opening brace of the constructor body: every array
member has been default-constructed, in the order of declaration (`sl_`,
`ulx_`, `vly_`, `ref_ulx_`, `ref_vly_`); the scalars hold `junk`. -/
def members_init [Zero R] (junk : basis R) : basis R × Mem R :=
  let sl := multi_array.init0 (fun _ => 0) ([] : Heap R)
  let ue := multi_array.init0 (fun _ => 0) ([] : Heap Int)
  let ud := multi_array.init0 (fun _ => 0) sl.2
  let ve := multi_array.init0 (fun _ => 0) ue.2
  let vd := multi_array.init0 (fun _ => 0) ud.2
  let rud := multi_array.init0 (fun _ => 0) vd.2
  let rum := multi_array.init0 (fun _ => 0) rud.2
  let rvd := multi_array.init0 (fun _ => 0) rum.2
  let rvm := multi_array.init0 (fun _ => 0) rvd.2
  (⟨junk.Lambda_, junk.dim_, junk.statistics_, sl.1,
    ⟨ue.1, ud.1, junk.ulx_.np, junk.ulx_.ns⟩, ⟨ve.1, vd.1, junk.vly_.np, junk.vly_.ns⟩,
    ⟨rud.1, rum.1⟩, ⟨rvd.1, rvm.1⟩⟩, ⟨rvm.2, ve.2⟩)

/-- The statements of lines 281-288 (family `ulx`) and 291-298 (family
`vly`): the family is loaded into `f` and its reference table into `r`. -/
def load_family [Zero R] (fs : FamilyStore R) (f : func R) (r : ref R) (m : Mem R) :
    Except Err (func R × ref R × Mem R) := do
  let data ← internal.load_into f.data fs.data m.d
  let edges ← internal.load_into f.section_edges fs.section_edges m.i
  let rdata ← internal.load_into r.data fs.ref_data data.2
  let rmax ← internal.load_into r.max fs.ref_max rdata.2
  pure (⟨edges.1, data.1, fs.np, fs.ns⟩, ⟨rdata.1, rmax.1⟩, ⟨rmax.2, edges.2⟩)

/-- The body of the constructor (lines 271-300), run on the
default-constructed members. -/
def body [Zero R] (s : Store R) (st : basis R × Mem R) : Except Err (basis R × Mem R) := do
  let sl ← internal.load_into st.1.sl_ s.sl st.2.d
  let u ← load_family s.ulx st.1.ulx_ st.1.ref_ulx_ ⟨sl.2, st.2.i⟩
  let v ← load_family s.vly st.1.vly_ st.1.ref_vly_ u.2.2
  pure (⟨s.info_Lambda, s.info_dim, if s.info_statistics = 0 then "B" else "F", sl.1,
    u.1, v.1, u.2.1, v.2.1⟩, v.2.2)

/-- The constructor `basis(file_name, prefix)` (lines 267-301) on a file whose
datasets below the path are `s`.  Every array member has been
default-constructed, so it holds a vector, when the body assigns to it. -/
def init [Zero R] (s : Store R) : Except Err (basis R × Mem R) :=
  body s (members_init ⟨0, 0, "", ⟨true, none, fun _ => 0⟩,
    ⟨⟨true, none, fun _ => 0⟩, ⟨true, none, fun _ => 0⟩, 0, 0⟩,
    ⟨⟨true, none, fun _ => 0⟩, ⟨true, none, fun _ => 0⟩, 0, 0⟩,
    ⟨⟨true, none, fun _ => 0⟩, ⟨true, none, fun _ => 0⟩⟩,
    ⟨⟨true, none, fun _ => 0⟩, ⟨true, none, fun _ => 0⟩⟩⟩)

/-- The member `dim()` (line 307). -/
def dim (b : basis R) : Int := b.dim_

/-- The member `sl(int l)` (lines 309-312). -/
def sl (b : basis R) (m : Mem R) (l : Int) : Except Err R :=
  if 0 ≤ l ∧ l < b.dim then b.sl_.at1 m.d l
  else .error .assertion_failed

/-- A loop `for (int i = 0; i < n; i++) body` whose bound `n` is a
`size_t`: `i` counts the iterations done, `fuel` those left; incrementing
the `int` counter past its largest value is undefined. -/
def for_int {σ : Type} (body : Int → σ → Except Err σ) : Nat → Nat → σ → Except Err σ
  | 0, _, s => .ok s
  | fuel + 1, i, s =>
    match body i s with
    | .error e => .error e
    | .ok s1 =>
      if 2147483647 ≤ i then .error .undefined_behaviour
      else for_int body fuel (i + 1) s1

/-- The member `get_l_data` (lines 344-350).  The extents of `_data` are
converted to the `int` parameters of the constructor of `a`; the local `a`
is the returned object. -/
def get_l_data [Zero R] (l : Int) (_data : multi_array R 3) (h : Heap R) :
    Except Err (multi_array R 2 × Heap R) :=
  match multi_array.init2 (to_int (_data.extents_ 1)) (to_int (_data.extents_ 2)) h with
  | .error e => .error e
  | .ok a =>
    match for_int (fun i h1 =>
        for_int (fun j h2 =>
          match _data.at3 h2 l i j with
          | .error e => .error e
          | .ok x => a.1.set2 h2 i j x) (_data.extents_ 2) 0 h1)
        (_data.extents_ 1) 0 a.2 with
    | .error e => .error e
    | .ok h3 => .ok (a.1, h3)

/-- The member `_even_odd_sign` (lines 352-354); `%` truncates towards zero. -/
def _even_odd_sign (l : Int) : Int := if l.tmod 2 = 0 then 1 else -1

/-- A call `_interpolate(x, get_l_data(l, data), section_edges)` as written
in `ulx` and `vly`.  The member `_interpolate` is declared in the source
without a body (line 356); it is the parameter `interp`, a function of the
coordinate and of the contents of the two arrays it is given.  The slice is
a temporary, destroyed when the full expression has been evaluated. -/
def _interpolate (interp : R → (Fin 2 → Nat) × List R → (Fin 1 → Nat) × List Int →
    Except Err R) [Zero R] (m : Mem R) (x : R) (l : Int) (data : multi_array R 3)
    (section_edges : multi_array Int 1) : Except Err (R × Mem R) :=
  match get_l_data l data m.d with
  | .error e => .error e
  | .ok slice =>
    match slice.1.snapshot slice.2, section_edges.snapshot m.i with
    | .ok sv, .ok ev =>
      match interp x sv ev with
      | .error e => .error e
      | .ok r => .ok (r, ⟨slice.1.destroy slice.2, m.i⟩)
    | .error e, _ => .error e
    | _, .error e => .error e

/-- The member `ulx` (lines 314-317). -/
def ulx [LinearOrderedRing R] (interp : R → (Fin 2 → Nat) × List R →
    (Fin 1 → Nat) × List Int → Except Err R) (b : basis R) (m : Mem R) (l : Int) (x : R) :
    Except Err (R × Mem R) :=
  if x ≥ 0 then _interpolate interp m x l b.ulx_.data b.ulx_.section_edges
  else (_interpolate interp m (-x) l b.ulx_.data b.ulx_.section_edges).map
    (fun r => (r.1 * ((_even_odd_sign l : Int) : R), r.2))

/-- The member `vly` (lines 319-323). -/
def vly [LinearOrderedRing R] (interp : R → (Fin 2 → Nat) × List R →
    (Fin 1 → Nat) × List Int → Except Err R) (b : basis R) (m : Mem R) (l : Int) (y : R) :
    Except Err (R × Mem R) :=
  if y ≥ 0 then _interpolate interp m y l b.vly_.data b.vly_.section_edges
  else (_interpolate interp m (-y) l b.vly_.data b.vly_.section_edges).map
    (fun r => (r.1 * ((_even_odd_sign l : Int) : R), r.2))

end basis

/-! ## Concrete files and states used in the examples -/

/-- A family with two basis functions, one section and one coefficient. -/
def demo_family : FamilyStore Int :=
  ⟨⟨[2, 1, 1], [10, 20], rfl⟩, 1, 1, ⟨[2], [0, 1], rfl⟩, ⟨[1, 1], [3], rfl⟩, ⟨[1], [4], rfl⟩⟩

/-- A file with `dim = 2` whose `/sl` dataset has two values. -/
def demo_store : Store Int :=
  ⟨5, 2, 0, ⟨[2], [7, 8], rfl⟩, demo_family, demo_family⟩

/-- A rank-1 owner with extent `2` on the third vector of `demo_heap3`. -/
def demo_rank1 : multi_array Int 1 := ⟨true, some 2, ![2]⟩

/-- A free store with three live vectors, of 6, of 24 and of 2 elements. -/
def demo_heap3 : Heap Int :=
  [⟨false, List.replicate 6 0⟩, ⟨false, List.replicate 24 0⟩, ⟨false, [1, 2]⟩]

/-- A free store with two live vectors, of 6 and of 24 elements. -/
def demo_heap : Heap Int :=
  [⟨false, List.replicate 6 0⟩, ⟨false, List.replicate 24 0⟩]

/-- A rank-2 owner with extents `(2, 3)` on the first vector of `demo_heap`. -/
def demo_rank2 : multi_array Int 2 := ⟨true, some 0, ![2, 3]⟩

/-- A rank-3 owner with extents `(2, 3, 4)` on the second vector of `demo_heap`. -/
def demo_rank3 : multi_array Int 3 := ⟨true, some 1, ![2, 3, 4]⟩

/-- A rank-2 view of the first vector of `demo_heap`. -/
def demo_view : multi_array Int 2 := ⟨false, some 0, ![2, 3]⟩

/-- The state after `multi_array<int, 2> a;` on an empty free store. -/
def fresh_rank2 : multi_array Int 2 × Heap Int :=
  multi_array.init0 (fun _ => 0) []

/-- The state after `multi_array<int, 1> dst(1), src(1); src(0) = 5;` on an
empty free store: the two arrays and the free store. -/
def two_owners : Except Err (multi_array Int 1 × multi_array Int 1 × Heap Int) :=
  match multi_array.init1 1 ([] : Heap Int) with
  | .error e => .error e
  | .ok d =>
    match multi_array.init1 1 d.2 with
    | .error e => .error e
    | .ok s =>
      match s.1.set1 s.2 0 5 with
      | .error e => .error e
      | .ok h => .ok (d.1, s.1, h)

/-- A dataset has the rank `DIM` and fewer than `2^31` values. -/
def Dataset.loadable {T : Type} (ds : Dataset T) (DIM : Nat) : Prop :=
  ds.dims.length = DIM ∧ ds.dims.prod < 2147483648

/-- Modelled from the spec: the section lookup of `_interpolate`, which the
source only declares (line 356).  Section 4.5: the first section, counted
from `s`, with `section_edges[s] ≤ x ≤ section_edges[s+1]`, and its two
edges. -/
def find_section {R : Type} [LinearOrderedRing R] (x : R) : List Int → Nat → Option (Nat × Int × Int)
  | a :: b :: rest, s =>
    if ((a : Int) : R) ≤ x ∧ x ≤ ((b : Int) : R) then some (s, a, b)
    else find_section x (b :: rest) (s + 1)
  | _, _ => none

/-- Modelled from the spec: the member `_interpolate`, which the source only
declares (line 356).  Section 4.5: the section of `x` is looked up in the
section edges; a coordinate outside every section is an out-of-domain error;
otherwise the polynomial expansion of that section is evaluated from the `np`
coefficients of the section.  The specification leaves the family of
polynomials open: `poly` stands for the evaluation of the expansion, given
the coefficients of the section, its two edges and the coordinate. -/
def spec_interpolate {R : Type} [LinearOrderedRing R] (poly : List R → Int → Int → R → R)
    (x : R) (slice : (Fin 2 → Nat) × List R) (section_edges : (Fin 1 → Nat) × List Int) :
    Except Err R :=
  match find_section x section_edges.2 0 with
  | none => .error .domain_error
  | some sec =>
    .ok (poly ((slice.2.drop (sec.1 * slice.1 1)).take (slice.1 1)) sec.2.1 sec.2.2 x)

/-- An empty dataset of rank 3 with the extents `(1, 0, 2^31)`. -/
def wide_empty_dataset : Dataset Int := ⟨[1, 0, 2147483648], [], rfl⟩

/-- A rank-3 owner with extents `(2, 2, 3)` whose vector holds `0, ..., 11`,
on a free store with that single vector. -/
def demo_coefficients : multi_array Int 3 × Heap Int :=
  (⟨true, some 0, ![2, 2, 3]⟩, [⟨false, [0, 1, 2, 3, 4, 5, 6, 7, 8, 9, 10, 11]⟩])

/-! ## Programs over arrays -/

/-- The objects of a program that only uses `multi_array`: the arrays
constructed so far, each with its rank, and the free store. -/
structure World (T : Type) where
  /-- The arrays, in the order of their construction. -/
  arrays : List (Σ d : Nat, multi_array T d)
  /-- The free store. -/
  heap : Heap T

/-- One statement of such a program; arrays are named by their position in
`World.arrays`. -/
inductive Stmt (T : Type)
  /-- The definition `multi_array<T, DIM> a;`. -/
  | construct0 (DIM : Nat) (junk : Fin DIM → Nat)
  /-- The definition `multi_array<T, 1> a(N1);`. -/
  | construct1 (N1 : Int)
  /-- The definition `multi_array<T, 2> a(N1, N2);`. -/
  | construct2 (N1 N2 : Int)
  /-- The definition `multi_array<T, 3> a(N1, N2, N3);`. -/
  | construct3 (N1 N2 N3 : Int)
  /-- The definition `multi_array<T, DIM> b(a);` with `a` the array `src`. -/
  | copy_construct (src : Nat)
  /-- The assignment `a = b;` with `a` the array `dst` and `b` the array `src`. -/
  | assign (dst src : Nat)
  /-- The call `a.resize(dims);` with `a` the array `arr`. -/
  | resize (arr : Nat) (dims : List Nat)
  /-- The statement `a(i) = x;`. -/
  | write1 (arr : Nat) (i : Int) (x : T)
  /-- The statement `a(i, j) = x;`. -/
  | write2 (arr : Nat) (i j : Int) (x : T)
  /-- The statement `a(i, j, k) = x;`. -/
  | write3 (arr : Nat) (i j k : Int) (x : T)

/-- The effect of one statement.  A statement that names an array that does
not exist, or that does not type-check in C++ (ranks that differ), is
`undefined_behaviour`; an exception or a failed assertion ends the program. -/
def step {T : Type} [Zero T] (w : World T) : Stmt T → Except Err (World T)
  | .construct0 DIM junk =>
    let r := multi_array.init0 junk w.heap
    .ok ⟨w.arrays ++ [⟨DIM, r.1⟩], r.2⟩
  | .construct1 N1 =>
    match multi_array.init1 N1 w.heap with
    | .error e => .error e
    | .ok r => .ok ⟨w.arrays ++ [⟨1, r.1⟩], r.2⟩
  | .construct2 N1 N2 =>
    match multi_array.init2 N1 N2 w.heap with
    | .error e => .error e
    | .ok r => .ok ⟨w.arrays ++ [⟨2, r.1⟩], r.2⟩
  | .construct3 N1 N2 N3 =>
    match multi_array.init3 N1 N2 N3 w.heap with
    | .error e => .error e
    | .ok r => .ok ⟨w.arrays ++ [⟨3, r.1⟩], r.2⟩
  | .copy_construct src =>
    match w.arrays[src]? with
    | some a =>
      match a.2.copy w.heap with
      | .error e => .error e
      | .ok r => .ok ⟨w.arrays ++ [⟨a.1, r.1⟩], r.2⟩
    | none => .error .undefined_behaviour
  | .assign dst src =>
    match w.arrays[dst]?, w.arrays[src]? with
    | some a, some b =>
      if h : b.1 = a.1 then
        match a.2.assign (h ▸ b.2) w.heap with
        | .error e => .error e
        | .ok r => .ok ⟨w.arrays.set dst ⟨a.1, r.1⟩, r.2⟩
      else .error .undefined_behaviour
    | _, _ => .error .undefined_behaviour
  | .resize arr dims =>
    match w.arrays[arr]? with
    | some a =>
      match a.2.resize (fun k => dims.getD k.val 0) w.heap with
      | (.error e, _, _) => .error e
      | (.ok (), a1, h1) => .ok ⟨w.arrays.set arr ⟨a.1, a1⟩, h1⟩
    | none => .error .undefined_behaviour
  | .write1 arr i x =>
    match w.arrays[arr]? with
    | some ⟨1, a⟩ =>
      match a.set1 w.heap i x with
      | .error e => .error e
      | .ok h1 => .ok ⟨w.arrays, h1⟩
    | _ => .error .undefined_behaviour
  | .write2 arr i j x =>
    match w.arrays[arr]? with
    | some ⟨2, a⟩ =>
      match a.set2 w.heap i j x with
      | .error e => .error e
      | .ok h1 => .ok ⟨w.arrays, h1⟩
    | _ => .error .undefined_behaviour
  | .write3 arr i j k x =>
    match w.arrays[arr]? with
    | some ⟨3, a⟩ =>
      match a.set3 w.heap i j k x with
      | .error e => .error e
      | .ok h1 => .ok ⟨w.arrays, h1⟩
    | _ => .error .undefined_behaviour

/-- The effect of a sequence of statements. -/
def run {T : Type} [Zero T] : List (Stmt T) → World T → Except Err (World T)
  | [], w => .ok w
  | s :: rest, w =>
    match step w s with
    | .error e => .error e
    | .ok w1 => run rest w1

/-- A program: three constructions, a copy construction, a resize and a
write. -/
def demo_program : List (Stmt Int) :=
  [.construct1 1, .construct2 2 3, .copy_construct 0, .construct0 2 (fun _ => 0),
    .resize 3 [4, 5], .write2 3 3 4 9]

/-- Every array of the world is an owner whose pointer is the address of a
vector of the free store. -/
def World.owned {T : Type} (w : World T) : Prop :=
  ∀ a ∈ w.arrays, a.2.owner_ = true ∧ ∃ p, a.2.p_data_ = some p ∧ p < w.heap.length

/-- The world `demo_program` leaves when run on no objects. -/
def demo_world : World Int :=
  match run demo_program ⟨[], []⟩ with
  | .ok w => w
  | .error _ => ⟨[], []⟩

/-! ## Arithmetic of the conversions -/

theorem to_int_emod (n : Nat) : to_int n % 4294967296 = (n : Int) % 4294967296 := by
  unfold to_int
  split <;> omega

theorem to_int_range (n : Nat) : in_int_range (to_int n) := by
  unfold to_int in_int_range
  split <;> omega

theorem to_int_of_lt {n : Nat} (h : n < 2147483648) : to_int n = n := by
  unfold to_int
  split <;> omega

theorem to_size_t_emod (z : Int) : ((to_size_t z : Nat) : Int) % 4294967296 = z % 4294967296 := by
  unfold to_size_t
  omega

theorem to_size_t_of_nonneg {z : Int} (h0 : 0 ≤ z) (h1 : z < 18446744073709551616) :
    to_size_t z = z.toNat := by
  unfold to_size_t
  omega

theorem to_size_t_natCast {n : Nat} (h1 : n < 18446744073709551616) :
    to_size_t (n : Int) = n := by
  unfold to_size_t
  omega

theorem to_size_t_of_neg {z : Int} (h0 : z < 0) (h1 : -2147483648 ≤ z) :
    max_size < to_size_t z := by
  unfold to_size_t max_size
  omega

/-- One step of the accumulation is a multiplication modulo `2^32`. -/
theorem accumulate_step_emod (acc : Int) (d : Nat) :
    to_int ((to_size_t acc * d) % 18446744073709551616) % 4294967296
      = (acc * d) % 4294967296 := by
  rw [to_int_emod]
  have h1 : (((to_size_t acc * d) % 18446744073709551616 : Nat) : Int) % 4294967296
      = ((to_size_t acc * d : Nat) : Int) % 4294967296 := by omega
  rw [h1, Nat.cast_mul, Int.mul_emod, to_size_t_emod, ← Int.mul_emod]

theorem accumulate_emod (dims : List Nat) (init : Int) :
    multi_array.accumulate dims init % 4294967296 = (init * (dims.prod : Nat)) % 4294967296 := by
  induction dims generalizing init with
  | nil => simp [multi_array.accumulate]
  | cons d ds ih =>
    have h : multi_array.accumulate (d :: ds) init
        = multi_array.accumulate ds (to_int ((to_size_t init * d) % 18446744073709551616)) := rfl
    rw [h, ih, Int.mul_emod, accumulate_step_emod, ← Int.mul_emod, List.prod_cons, Nat.cast_mul,
      mul_assoc]

theorem accumulate_range (dims : List Nat) (init : Int) (hi : in_int_range init) :
    in_int_range (multi_array.accumulate dims init) := by
  induction dims generalizing init with
  | nil => simpa [multi_array.accumulate] using hi
  | cons d ds ih => exact ih _ (to_int_range _)

/-- When the product of the extents is below `2^31` the accumulation yields it. -/
theorem accumulate_of_lt (dims : List Nat) (h : dims.prod < 2147483648) :
    multi_array.accumulate dims 1 = dims.prod := by
  have h1 := accumulate_emod dims 1
  have h2 := accumulate_range dims 1 (by unfold in_int_range; omega)
  unfold in_int_range at h2
  rw [one_mul] at h1
  omega

/-- A successful size computation never exceeds the true product. -/
theorem accumulate_le (dims : List Nat) (h : ¬ max_size < to_size_t (multi_array.accumulate dims 1)) :
    to_size_t (multi_array.accumulate dims 1) = dims.prod % 4294967296
      ∧ dims.prod % 4294967296 < 2147483648 := by
  have h1 := accumulate_emod dims 1
  have h2 := accumulate_range dims 1 (by unfold in_int_range; omega)
  unfold in_int_range at h2
  rw [one_mul] at h1
  unfold to_size_t max_size at *
  omega

/-! ## The evaluators `ulx` and `vly` -/

theorem even_odd_sign_eq (l : Int) :
    basis._even_odd_sign l = if l % 2 = 0 then 1 else -1 := by
  unfold basis._even_odd_sign
  have h : l.tmod 2 = 0 ↔ l % 2 = 0 := by
    rw [← Int.dvd_iff_tmod_eq_zero, Int.dvd_iff_emod_eq_zero]
  by_cases h2 : l % 2 = 0
  · rw [if_pos (h.2 h2), if_pos h2]
  · rw [if_neg (fun h3 => h2 (h.1 h3)), if_neg h2]

theorem even_odd_sign_sq {R : Type} [LinearOrderedRing R] (l : Int) (r : R) :
    r * ((basis._even_odd_sign l : Int) : R) * ((basis._even_odd_sign l : Int) : R) = r := by
  unfold basis._even_odd_sign
  split <;> simp

theorem map_map_sign {R M : Type} [LinearOrderedRing R] (l : Int) (e : Except Err (R × M)) :
    (e.map (fun r => (r.1 * ((basis._even_odd_sign l : Int) : R), r.2))).map
      (fun r => (r.1 * ((basis._even_odd_sign l : Int) : R), r.2)) = e := by
  cases e with
  | error e => rfl
  | ok r => simp [Except.map, even_odd_sign_sq]

theorem map_sign_even {R M : Type} [LinearOrderedRing R] (l : Int) (hl : l % 2 = 0)
    (e : Except Err (R × M)) :
    e.map (fun r => (r.1 * ((basis._even_odd_sign l : Int) : R), r.2)) = e := by
  cases e with
  | error e => rfl
  | ok r => simp [Except.map, even_odd_sign_eq, hl]

/-- The member `ulx` on any state of a basis: for every index `l` and every
coordinate `x` that is not zero, or is zero with `l` even, `ulx(l, -x)` is
`ulx(l, x)` multiplied by `+1` when `l` is even and by `-1` when `l` is odd,
whatever function `_interpolate` is.  (At `x = 0` both calls take the branch
without the sign.) -/
theorem ulx_parity {R : Type} [LinearOrderedRing R]
    (interp : R → (Fin 2 → Nat) × List R → (Fin 1 → Nat) × List Int → Except Err R)
    (b : basis R) (m : Mem R) (l : Int) (x : R) (hx : x ≠ 0 ∨ l % 2 = 0) :
    basis.ulx interp b m l (-x)
      = (basis.ulx interp b m l x).map
          (fun r => (r.1 * (((if l % 2 = 0 then 1 else -1 : Int)) : R), r.2)) := by
  rw [← even_odd_sign_eq]
  unfold basis.ulx
  rcases lt_trichotomy x 0 with hneg | hzero | hpos
  · have h1 : ¬ x ≥ 0 := not_le.mpr hneg
    have h2 : -x ≥ 0 := by
      have := neg_pos.mpr hneg
      exact le_of_lt this
    rw [if_neg h1, if_pos h2, map_map_sign]
  · subst hzero
    rcases hx with hx | hl
    · exact absurd rfl hx
    · simp only [neg_zero, ge_iff_le, le_refl, if_true]
      rw [map_sign_even l hl]
  · have h1 : x ≥ 0 := le_of_lt hpos
    have h2 : ¬ -x ≥ 0 := by
      intro h
      have := neg_nonneg.mp h
      exact absurd hpos (not_lt.mpr this)
    rw [if_pos h1, if_neg h2, neg_neg]

/-- C2: for every basis, every integer `l` and every `y`, `vly(l, y)` is, for
`y < 0`, the interpolation of the slice `l` of the coefficients of the `vly`
family at `|y|` over the section edges of the `vly` family, multiplied by
`+1` if `l` is even and by `-1` if `l` is odd, and for `y >= 0` that
interpolation at `y` with no factor. -/
theorem vly_negative_argument {R : Type} [LinearOrderedRing R]
    (interp : R → (Fin 2 → Nat) × List R → (Fin 1 → Nat) × List Int → Except Err R)
    (b : basis R) (m : Mem R) (l : Int) (y : R) :
    basis.vly interp b m l y
      = if y < 0 then
          (basis._interpolate interp m |y| l b.vly_.data b.vly_.section_edges).map
            (fun r => (r.1 * (((if l % 2 = 0 then 1 else -1 : Int)) : R), r.2))
        else basis._interpolate interp m y l b.vly_.data b.vly_.section_edges := by
  rw [← even_odd_sign_eq]
  unfold basis.vly
  by_cases h : y < 0
  · rw [if_pos h, if_neg (not_le.mpr h), abs_of_neg h]
  · rw [if_neg h, if_pos (not_lt.mp h)]

/-! ## The free store -/

theorem bind_eq_ok {α β : Type} {x : Except Err α} {f : α → Except Err β} {b : β}
    (h : x >>= f = .ok b) : ∃ a, x = .ok a ∧ f a = .ok b := by
  cases x with
  | error e => cases h
  | ok a => exact ⟨a, rfl, h⟩

theorem deref_some {T : Type} (h : Heap T) (p : Nat) (c : vector_cell T) (hc : h[p]? = some c) :
    h.deref (some p) = .ok (p, c.elems) := by
  simp [Heap.deref, hc]

theorem deref_eq_ok {T : Type} {h : Heap T} {q : Option Nat} {r : Nat × List T}
    (hd : h.deref q = .ok r) : q = some r.1 ∧ ∃ c, h[r.1]? = some c ∧ c.elems = r.2 := by
  unfold Heap.deref at hd
  cases q with
  | none => cases hd
  | some a =>
    simp only at hd
    cases hc : h[a]? with
    | none => rw [hc] at hd; cases hd
    | some c =>
      rw [hc] at hd
      cases hd
      exact ⟨rfl, c, hc, rfl⟩

theorem store_of_cell {T : Type} (h : Heap T) (p : Nat) (c : vector_cell T) (v : List T)
    (hc : h[p]? = some c) : h.store p v = h.set p ⟨c.deleted, v⟩ := by
  simp [Heap.store, hc]

theorem drop_replicate_of_le {T : Type} (x : T) (n k : Nat) (h : n ≤ k) :
    (List.replicate n x).drop k = [] := by
  simp [List.drop_eq_nil_iff, h]

/-! ## The operations of `multi_array` on a valid array -/

/-- The default constructor appends an empty live vector. -/
theorem init0_eq {T : Type} {DIM : Nat} (junk : Fin DIM → Nat) (h : Heap T) :
    multi_array.init0 junk h = (⟨true, some h.length, junk⟩, h ++ [⟨false, []⟩]) := rfl

/-- The member `resize` on an owner whose pointer refers to a vector. -/
theorem resize_owner {T : Type} [Zero T] {DIM : Nat} (a : multi_array T DIM) (dims : Fin DIM → Nat)
    (h : Heap T) (p : Nat) (c : vector_cell T) (ho : a.owner_ = true) (hp : a.p_data_ = some p)
    (hc : h[p]? = some c) :
    a.resize dims h =
      if max_size < to_size_t (multi_array.accumulate (List.ofFn dims) 1) then
        (.error .length_error, a, h)
      else
        (.ok (), ⟨true, some p, dims⟩, h.set p ⟨c.deleted,
          vector_resize c.elems (to_size_t (multi_array.accumulate (List.ofFn dims) 1))⟩) := by
  unfold multi_array.resize
  rw [ho, hp, deref_some _ _ _ hc]
  simp only [Bool.not_true, Bool.false_eq_true, if_false]
  split
  · rfl
  · rw [store_of_cell _ _ _ _ hc]

/-- The call `H5Dread` into an array whose pointer refers to a vector. -/
theorem h5d_read_eq {T : Type} {DIM : Nat} (a : multi_array T DIM) (payload : List T)
    (h : Heap T) (p : Nat) (c : vector_cell T) (hp : a.p_data_ = some p) (hc : h[p]? = some c) :
    internal.h5d_read a payload h =
      if payload.length ≤ c.elems.length then
        .ok (h.set p ⟨c.deleted, payload ++ c.elems.drop payload.length⟩)
      else .error .undefined_behaviour := by
  unfold internal.h5d_read
  rw [hp, deref_some _ _ _ hc]
  simp only
  split
  · rw [store_of_cell _ _ _ _ hc]
  · rfl

/-- The copy constructor on an owner whose pointer refers to a vector: a
fresh live vector receives the elements. -/
theorem copy_owner {T : Type} {DIM : Nat} (other : multi_array T DIM) (h : Heap T) (q : Nat)
    (c : vector_cell T) (ho : other.owner_ = true) (hq : other.p_data_ = some q)
    (hc : h[q]? = some c) :
    other.copy h = .ok (⟨true, some h.length, other.extents_⟩, h ++ [⟨false, c.elems⟩]) := by
  unfold multi_array.copy multi_array.assign
  simp only [ho, if_true, Heap.new_vector, hq]
  have hq2 : q < h.length := by
    rcases List.getElem?_eq_some_iff.mp hc with ⟨hlt, _⟩
    exact hlt
  have hc2 : (h ++ [(⟨false, []⟩ : vector_cell T)])[q]? = some c := by
    rw [List.getElem?_append_left hq2]; exact hc
  rw [deref_some _ _ _ hc2]
  have hc3 : (h ++ [(⟨false, []⟩ : vector_cell T)])[h.length]? = some ⟨false, []⟩ := by simp
  simp only [List.length_append, List.length_singleton, Nat.lt_add_one, if_true]
  rw [store_of_cell _ _ _ _ hc3]
  simp

/-- The assignment to an array that holds a vector, from an owner: the
vector is deleted on line 65 and line 73 copy-assigns into it. -/
theorem assign_use_after_free {T : Type} {DIM : Nat} (this other : multi_array T DIM)
    (h : Heap T) (p : Nat) (hp : this.p_data_ = some p) (ho : other.owner_ = true) :
    this.assign other h = .error .undefined_behaviour := by
  unfold multi_array.assign
  simp only [ho, if_true, hp]

/-! ## The loader -/

theorem ofFn_getD (DIM : Nat) (dims : List Nat) (hd : dims.length = DIM) :
    (List.ofFn fun i : Fin DIM => dims.getD i.val 0) = dims := by
  apply List.ext_getElem
  · simp; omega
  · intro n h1 h2
    simp [List.getD_eq_getElem?_getD, List.getElem?_eq_getElem h2]

/-- What `load_multi_array` returns when it returns: an owning array with
the extents of the dataset, whose fresh vector holds the payload; the copy
`b` is left behind as a deleted vector. -/
theorem load_multi_array_ok {T : Type} [Zero T] {DIM : Nat} {ds : Dataset T} {h : Heap T}
    {r : multi_array T DIM × Heap T} (hr : internal.load_multi_array DIM ds h = .ok r) :
    r.1 = ⟨true, some h.length, fun i => ds.dims.getD i.val 0⟩
      ∧ r.2 = h ++ [⟨false, ds.payload⟩, ⟨true, []⟩]
      ∧ ds.dims.length = DIM ∧ ds.dims.prod < 2147483648 := by
  unfold internal.load_multi_array at hr
  split at hr
  · cases hr
  split at hr
  · cases hr
  rename_i hdim
  have hdim2 : ds.dims.length = DIM := not_not.mp hdim
  have hcell : (h ++ [(⟨false, []⟩ : vector_cell T)])[h.length]? = some ⟨false, []⟩ := by simp
  rw [init0_eq] at hr
  simp only at hr
  rw [resize_owner _ _ _ h.length _ rfl rfl hcell, ofFn_getD DIM ds.dims hdim2] at hr
  by_cases hmax : max_size < to_size_t (multi_array.accumulate ds.dims 1)
  · rw [if_pos hmax] at hr
    cases hr
  rw [if_neg hmax] at hr
  obtain ⟨htot, hlt⟩ := accumulate_le ds.dims hmax
  have hset : (h ++ [(⟨false, []⟩ : vector_cell T)]).set h.length
      ⟨false, vector_resize [] (ds.dims.prod % 4294967296)⟩
      = h ++ [⟨false, List.replicate (ds.dims.prod % 4294967296) 0⟩] := by
    simp [vector_resize]
  simp only [htot] at hr
  rw [hset] at hr
  have hcell2 : (h ++ [(⟨false, List.replicate (ds.dims.prod % 4294967296) 0⟩ : vector_cell T)])[h.length]?
      = some ⟨false, List.replicate (ds.dims.prod % 4294967296) 0⟩ := by simp
  rw [h5d_read_eq _ _ _ h.length _ rfl hcell2] at hr
  simp only [List.length_replicate] at hr
  by_cases hpl : ds.payload.length ≤ ds.dims.prod % 4294967296
  swap
  · rw [if_neg hpl] at hr
    cases hr
  rw [if_pos hpl] at hr
  have hple : ds.dims.prod % 4294967296 ≤ ds.dims.prod := Nat.mod_le _ _
  have hsz := ds.size_eq
  rw [drop_replicate_of_le _ _ _ (by omega : ds.dims.prod % 4294967296 ≤ ds.payload.length)] at hr
  simp only [List.append_nil] at hr
  have hset2 : (h ++ [(⟨false, List.replicate (ds.dims.prod % 4294967296) 0⟩ : vector_cell T)]).set
      h.length ⟨false, ds.payload⟩ = h ++ [⟨false, ds.payload⟩] := by
    simp
  rw [hset2] at hr
  have hcell3 : (h ++ [(⟨false, ds.payload⟩ : vector_cell T)])[h.length]?
      = some ⟨false, ds.payload⟩ := by simp
  rw [copy_owner _ _ h.length _ rfl rfl hcell3] at hr
  simp only [multi_array.destroy, if_true, Heap.delete] at hr
  cases hr
  refine ⟨rfl, ?_, hdim2, by omega⟩
  simp

/-- An assignment `member = load_multi_array<DIM>(...)` to a member that
holds a vector never returns: either the loader fails, or the assignment
operator uses the vector it has deleted. -/
theorem load_into_never_returns {T : Type} [Zero T] {DIM : Nat} (member : multi_array T DIM)
    (ds : Dataset T) (h : Heap T) (p : Nat) (hp : member.p_data_ = some p)
    (r : multi_array T DIM × Heap T) : internal.load_into member ds h ≠ .ok r := by
  intro hr
  unfold internal.load_into at hr
  split at hr
  · cases hr
  rename_i tmp htmp
  obtain ⟨h1, -, -, -⟩ := load_multi_array_ok htmp
  rw [assign_use_after_free member tmp.1 tmp.2 p hp (by rw [h1])] at hr
  cases hr

/-! ## C3, C4 and C5: the accessors `sl` and `dim` -/

/-- The assertion of the accessors on an array whose pointer refers to the
vector `v`. -/
theorem checked_eq {T : Type} {DIM : Nat} (a : multi_array T DIM) (h : Heap T) (idx : Int)
    (p : Nat) (v : List T) (hv : h.deref a.p_data_ = .ok (p, v)) :
    a.checked h idx =
      if 0 ≤ idx ∧ to_size_t idx < v.length then .ok idx.toNat else .error .assertion_failed := by
  unfold multi_array.checked
  rw [hv]

theorem read_ok {T : Type} {DIM : Nat} (a : multi_array T DIM) (h : Heap T) (n : Nat)
    (p : Nat) (v : List T) (hv : h.deref a.p_data_ = .ok (p, v)) :
    a.read h (.ok n) =
      match v[n]? with
      | some x => .ok x
      | none => .error .undefined_behaviour := by
  unfold multi_array.read
  rw [hv]

theorem read_error {T : Type} {DIM : Nat} (a : multi_array T DIM) (h : Heap T) (e : Err) :
    a.read h (.error e) = .error e := by
  unfold multi_array.read
  split
  · rename_i heq _; cases heq
  · rename_i heq; cases heq; rfl
  · rename_i h1; exact absurd rfl (h1 e)

theorem write_ok {T : Type} {DIM : Nat} (a : multi_array T DIM) (h : Heap T) (n : Nat) (x : T)
    (p : Nat) (v : List T) (hv : h.deref a.p_data_ = .ok (p, v)) :
    a.write h (.ok n) x = .ok (h.store p (v.set n x)) := by
  unfold multi_array.write
  rw [hv]

theorem write_error {T : Type} {DIM : Nat} (a : multi_array T DIM) (h : Heap T) (e : Err)
    (x : T) : a.write h (.error e) x = .error e := by
  unfold multi_array.write
  split
  · rename_i heq _; cases heq
  · rename_i heq; cases heq; rfl
  · rename_i h1; exact absurd rfl (h1 e)

/-- The value of `a(i)` for an array whose pointer refers to the vector `v`. -/
theorem at1_eq {T : Type} (a : multi_array T 1) (h : Heap T) (i : Int) (p : Nat) (v : List T)
    (hv : h.deref a.p_data_ = .ok (p, v)) :
    a.at1 h i =
      if 0 ≤ i ∧ to_size_t i < v.length then
        match v[i.toNat]? with
        | some x => .ok x
        | none => .error .undefined_behaviour
      else .error .assertion_failed := by
  unfold multi_array.at1 multi_array.idx1
  rw [checked_eq _ _ _ _ _ hv]
  by_cases hc : 0 ≤ i ∧ to_size_t i < v.length
  · rw [if_pos hc, if_pos hc, read_ok _ _ _ _ _ hv]
  · rw [if_neg hc, if_neg hc, read_error]

/-- C3 (the code at the failing input): for the file `demo_store` the loader
returns an array that holds the values `7` and `8` of `/sl` unchanged, and the
assignment of that array to `sl_` on line 278 is the use after free of
`operator=`: the program that constructs the basis and asks for `sl(0)` and
`sl(1)` has undefined behaviour. -/
theorem sl_values_lost_at_assignment :
    (internal.load_multi_array 1 demo_store.sl ([] : Heap Int)).map
        (fun r => (r.1.at1 r.2 0, r.1.at1 r.2 1)) = .ok (.ok 7, .ok 8)
      ∧ (basis.init demo_store).map (fun st => (st.1.sl st.2 0, st.1.sl st.2 1))
        = .error .undefined_behaviour := by
  decide

/-- The member `sl` on any state of a basis whose `sl_` refers to a vector
`v`, for every `int` `l`: if `l < 0` or `l >= dim()` then `sl(l)` fails an assertion;
if `l` is in `[0, dim())` and below the number of elements of `v` then
`sl(l)` returns the element `l` of `v`; if `l` is in `[0, dim())` and not
below that number then `sl(l)` fails an assertion. -/
theorem sl_index_check {R : Type} (b : basis R) (m : Mem R) (l : Int) (p : Nat) (v : List R)
    (hv : m.d.deref b.sl_.p_data_ = .ok (p, v)) (hl : in_int_range l) :
    ((l < 0 ∨ b.dim ≤ l) → b.sl m l = .error .assertion_failed)
      ∧ ((0 ≤ l ∧ l < b.dim ∧ l < v.length) →
          ∃ x, v[l.toNat]? = some x ∧ b.sl m l = .ok x)
      ∧ ((0 ≤ l ∧ l < b.dim ∧ (v.length : Int) ≤ l) → b.sl m l = .error .assertion_failed) := by
  unfold in_int_range at hl
  refine ⟨?_, ?_, ?_⟩
  · intro h
    unfold basis.sl
    rw [if_neg (by omega)]
  · rintro ⟨h0, h1, h2⟩
    have hs : to_size_t l = l.toNat := to_size_t_of_nonneg h0 (by omega)
    have hlt : l.toNat < v.length := by omega
    refine ⟨v[l.toNat], List.getElem?_eq_getElem hlt, ?_⟩
    unfold basis.sl
    rw [if_pos ⟨h0, h1⟩, at1_eq _ _ _ _ _ hv, if_pos ⟨h0, by omega⟩,
      List.getElem?_eq_getElem hlt]
  · rintro ⟨h0, h1, h2⟩
    have hs : to_size_t l = l.toNat := to_size_t_of_nonneg h0 (by omega)
    unfold basis.sl
    rw [if_pos ⟨h0, h1⟩, at1_eq _ _ _ _ _ hv, if_neg (by omega)]

/-- The `size_t` evaluation of the rank-3 offset, converted to `int`, is
the mathematical offset when the indices are non-negative and the offset is
below `2^31`. -/
theorem flat3_exact (i j k : Int) (e1 e2 : Nat) (hi : 0 ≤ i ∧ i < 2147483648)
    (hj : 0 ≤ j ∧ j < 2147483648) (hk : 0 ≤ k ∧ k < 2147483648)
    (hoff : (i * e1 + j) * e2 + k < 2147483648) :
    to_int (((to_size_t i * e1 + to_size_t j) * e2 + to_size_t k) % 18446744073709551616)
      = (i * e1 + j) * e2 + k := by
  obtain ⟨hi0, hi1⟩ := hi
  obtain ⟨hj0, hj1⟩ := hj
  obtain ⟨hk0, hk1⟩ := hk
  lift i to ℕ using hi0
  lift j to ℕ using hj0
  lift k to ℕ using hk0
  rw [to_size_t_natCast (by omega), to_size_t_natCast (by omega), to_size_t_natCast (by omega)]
  have hN : (i * e1 + j) * e2 + k < 2147483648 := by exact_mod_cast hoff
  rw [Nat.mod_eq_of_lt (by omega), to_int_of_lt hN]
  push_cast
  rfl

/-- The rank-2 analogue of `flat3_exact`. -/
theorem flat2_exact (i j : Int) (e1 : Nat) (hi : 0 ≤ i ∧ i < 2147483648)
    (hj : 0 ≤ j ∧ j < 2147483648) (hoff : e1 * i + j < 2147483648) :
    to_int ((e1 * to_size_t i + to_size_t j) % 18446744073709551616) = e1 * i + j := by
  obtain ⟨hi0, hi1⟩ := hi
  obtain ⟨hj0, hj1⟩ := hj
  lift i to ℕ using hi0
  lift j to ℕ using hj0
  rw [to_size_t_natCast (by omega), to_size_t_natCast (by omega)]
  have hN : e1 * i + j < 2147483648 := by exact_mod_cast hoff
  rw [Nat.mod_eq_of_lt (by omega), to_int_of_lt hN]
  push_cast
  rfl

/-- An in-range index pair has its offset below the product of the extents. -/
theorem off2_bound (N1 N2 i j : Int) (hi : 0 ≤ i ∧ i < N1) (hj : 0 ≤ j ∧ j < N2) :
    0 ≤ i * N2 + j ∧ i * N2 + j < N1 * N2 := by
  have h1 : i * N2 ≤ (N1 - 1) * N2 := mul_le_mul_of_nonneg_right (by omega) (by omega)
  have h2 : 0 ≤ i * N2 := mul_nonneg hi.1 (by omega)
  constructor
  · omega
  · have : (N1 - 1) * N2 = N1 * N2 - N2 := by ring
    omega

/-- An in-range index triple has its offset below the product of the extents. -/
theorem off3_bound (N1 N2 N3 i j k : Int) (hi : 0 ≤ i ∧ i < N1) (hj : 0 ≤ j ∧ j < N2)
    (hk : 0 ≤ k ∧ k < N3) :
    0 ≤ (i * N2 + j) * N3 + k ∧ (i * N2 + j) * N3 + k < N1 * N2 * N3 := by
  have h := off2_bound N1 N2 i j hi hj
  exact off2_bound (N1 * N2) N3 (i * N2 + j) k h hk

/-- Two in-range pairs with the same offset are the same pair. -/
theorem off2_inj (N2 i j i' j' : Int) (hj : 0 ≤ j ∧ j < N2) (hj' : 0 ≤ j' ∧ j' < N2)
    (h : i * N2 + j = i' * N2 + j') : i = i' ∧ j = j' := by
  have hd : (i - i') * N2 = j' - j := by
    have : (i - i') * N2 = i * N2 - i' * N2 := by ring
    omega
  have hii : i = i' := by
    by_contra hne
    rcases lt_or_gt_of_ne hne with hlt | hgt
    · have h2 : (i' - i) * N2 ≥ 1 * N2 := mul_le_mul_of_nonneg_right (by omega) (by omega)
      have h3 : (i - i') * N2 = -((i' - i) * N2) := by ring
      omega
    · have h2 : (i - i') * N2 ≥ 1 * N2 := mul_le_mul_of_nonneg_right (by omega) (by omega)
      omega
  subst hii
  exact ⟨rfl, by omega⟩

/-- Two in-range triples with the same offset are the same triple. -/
theorem off3_inj (N2 N3 i j k i' j' k' : Int) (hj : 0 ≤ j ∧ j < N2) (hj' : 0 ≤ j' ∧ j' < N2)
    (hk : 0 ≤ k ∧ k < N3) (hk' : 0 ≤ k' ∧ k' < N3)
    (h : (i * N2 + j) * N3 + k = (i' * N2 + j') * N3 + k') : i = i' ∧ j = j' ∧ k = k' := by
  obtain ⟨h1, h2⟩ := off2_inj N3 (i * N2 + j) k (i' * N2 + j') k' hk hk' h
  obtain ⟨h3, h4⟩ := off2_inj N2 i j i' j' hj hj' h1
  exact ⟨h3, h4, h2⟩

/-! ## Element access on a valid array -/

theorem read_checked {T : Type} {DIM : Nat} (a : multi_array T DIM) (h : Heap T) (off : Int)
    (p : Nat) (v : List T) (hv : h.deref a.p_data_ = .ok (p, v)) :
    a.read h (a.checked h off) =
      if 0 ≤ off ∧ to_size_t off < v.length then
        match v[off.toNat]? with
        | some x => .ok x
        | none => .error .undefined_behaviour
      else .error .assertion_failed := by
  rw [checked_eq _ _ _ _ _ hv]
  by_cases hc : 0 ≤ off ∧ to_size_t off < v.length
  · rw [if_pos hc, if_pos hc, read_ok _ _ _ _ _ hv]
  · rw [if_neg hc, if_neg hc, read_error]

theorem write_checked {T : Type} {DIM : Nat} (a : multi_array T DIM) (h : Heap T) (off : Int)
    (x : T) (p : Nat) (v : List T) (hv : h.deref a.p_data_ = .ok (p, v)) :
    a.write h (a.checked h off) x =
      if 0 ≤ off ∧ to_size_t off < v.length then .ok (h.store p (v.set off.toNat x))
      else .error .assertion_failed := by
  rw [checked_eq _ _ _ _ _ hv]
  by_cases hc : 0 ≤ off ∧ to_size_t off < v.length
  · rw [if_pos hc, if_pos hc, write_ok _ _ _ _ _ _ hv]
  · rw [if_neg hc, if_neg hc, write_error]

/-- After the elements of the vector at `p` are replaced, the pointer `p`
refers to the new elements. -/
theorem deref_store_same {T : Type} (h : Heap T) (q : Option Nat) (p : Nat) (v w : List T)
    (hv : h.deref q = .ok (p, v)) : (h.store p w).deref q = .ok (p, w) := by
  obtain ⟨hq, c, hc, -⟩ := deref_eq_ok hv
  simp only at hq hc
  have hlt : p < h.length := (List.getElem?_eq_some_iff.mp hc).1
  rw [hq, store_of_cell _ _ _ _ hc]
  exact deref_some _ _ ⟨c.deleted, w⟩ (List.getElem?_set_self hlt)

/-- Replacing the elements of the vector at `p` leaves the other vectors. -/
theorem deref_store_other {T : Type} (h : Heap T) (p q : Nat) (w : List T) (hne : p ≠ q) :
    (h.store p w).deref (some q) = h.deref (some q) := by
  unfold Heap.store
  cases hc : h[p]? with
  | none => rfl
  | some c =>
    simp only [Heap.deref]
    rw [List.getElem?_set_ne hne]

/-- The expression `new std::vector<T>(n)` for a count within `int`. -/
theorem new_sized_ok {T : Type} [Zero T] (n : Int) (h : Heap T) (h0 : 0 ≤ n)
    (h1 : n < 2147483648) :
    multi_array.new_sized n h = .ok (h.length, h ++ [⟨false, List.replicate n.toNat 0⟩]) := by
  unfold multi_array.new_sized
  have hr : in_int_range n := by unfold in_int_range; omega
  have hs : to_size_t n = n.toNat := to_size_t_of_nonneg h0 (by omega)
  rw [if_neg (not_not.mpr hr), hs, if_neg (by unfold max_size; omega)]
  rfl

/-- The three-extent constructor for non-negative extents whose product is
below `2^31`. -/
theorem init3_ok {T : Type} [Zero T] (N1 N2 N3 : Int) (h : Heap T) (h1 : 0 ≤ N1) (h2 : 0 ≤ N2)
    (h3 : 0 ≤ N3) (h12 : N1 * N2 < 2147483648) (hp : N1 * N2 * N3 < 2147483648) :
    multi_array.init3 N1 N2 N3 h = .ok (⟨true, some h.length, ![to_size_t N1, to_size_t N2,
      to_size_t N3]⟩, h ++ [⟨false, List.replicate (N1 * N2 * N3).toNat (0 : T)⟩]) := by
  unfold multi_array.init3
  have h0 : 0 ≤ N1 * N2 := mul_nonneg h1 h2
  have hr : in_int_range (N1 * N2) := by unfold in_int_range; omega
  rw [if_neg (not_not.mpr hr), new_sized_ok _ _ (mul_nonneg h0 h3) hp]

/-- The two-extent constructor for non-negative extents whose product is
below `2^31`. -/
theorem init2_ok {T : Type} [Zero T] (N1 N2 : Int) (h : Heap T) (h1 : 0 ≤ N1) (h2 : 0 ≤ N2)
    (hp : N1 * N2 < 2147483648) :
    multi_array.init2 N1 N2 h = .ok (⟨true, some h.length, ![to_size_t N1, to_size_t N2]⟩,
      h ++ [⟨false, List.replicate (N1 * N2).toNat (0 : T)⟩]) := by
  unfold multi_array.init2
  rw [new_sized_ok _ _ (mul_nonneg h1 h2) hp]

/-- The one-extent constructor for a non-negative extent. -/
theorem init1_ok {T : Type} [Zero T] (N1 : Int) (h : Heap T) (h1 : 0 ≤ N1)
    (hp : N1 < 2147483648) :
    multi_array.init1 N1 h = .ok (⟨true, some h.length, ![to_size_t N1]⟩,
      h ++ [⟨false, List.replicate N1.toNat (0 : T)⟩]) := by
  unfold multi_array.init1
  rw [new_sized_ok _ _ h1 hp]

/-- The pointer of a freshly constructed array refers to its vector. -/
theorem deref_fresh {T : Type} (h : Heap T) (c : vector_cell T) :
    (h ++ [c]).deref (some h.length) = .ok (h.length, c.elems) :=
  deref_some _ _ c (by simp)

/-! ## C6: row-major addressing of the rank-3 and rank-2 accessors -/

/-- The in-range accesses of a rank-3 array whose extents are the
non-negative `int` values `N1`, `N2`, `N3` and whose vector `v` has
`N1 * N2 * N3` elements, the product being below `2^31`. -/
theorem rank3_access {T : Type} (a : multi_array T 3) (h : Heap T) (p : Nat) (v : List T)
    (N1 N2 N3 i j k : Int) (hv : h.deref a.p_data_ = .ok (p, v))
    (he1 : a.extents_ 1 = to_size_t N2) (he2 : a.extents_ 2 = to_size_t N3)
    (hlen : (v.length : Int) = N1 * N2 * N3) (hfit : N1 * N2 * N3 < 2147483648)
    (hi : 0 ≤ i ∧ i < N1) (hj : 0 ≤ j ∧ j < N2) (hk : 0 ≤ k ∧ k < N3) :
    a.idx3 h i j k = .ok ((i * N2 + j) * N3 + k).toNat
      ∧ ((i * N2 + j) * N3 + k).toNat < v.length := by
  obtain ⟨hb0, hb1⟩ := off3_bound N1 N2 N3 i j k hi hj hk
  have hA : N2 ≤ N1 * N2 := by
    have h1 : 0 ≤ (N1 - 1) * N2 := mul_nonneg (by omega) (by omega)
    have h2 : (N1 - 1) * N2 = N1 * N2 - N2 := by ring
    omega
  have hB : N1 ≤ N1 * N2 := by
    have h1 : 0 ≤ N1 * (N2 - 1) := mul_nonneg (by omega) (by omega)
    have h2 : N1 * (N2 - 1) = N1 * N2 - N1 := by ring
    omega
  have hC : N1 * N2 ≤ N1 * N2 * N3 := by
    have h1 : 0 ≤ N1 * N2 * (N3 - 1) := mul_nonneg (by omega) (by omega)
    have h2 : N1 * N2 * (N3 - 1) = N1 * N2 * N3 - N1 * N2 := by ring
    omega
  have hD : N3 ≤ N1 * N2 * N3 := by
    have h1 : 0 ≤ (N1 * N2 - 1) * N3 := mul_nonneg (by omega) (by omega)
    have h2 : (N1 * N2 - 1) * N3 = N1 * N2 * N3 - N3 := by ring
    omega
  have hs2 : to_size_t N2 = N2.toNat := to_size_t_of_nonneg (by omega) (by omega)
  have hs3 : to_size_t N3 = N3.toNat := to_size_t_of_nonneg (by omega) (by omega)
  have hc2 : ((N2.toNat : Nat) : Int) = N2 := Int.toNat_of_nonneg (by omega)
  have hc3 : ((N3.toNat : Nat) : Int) = N3 := Int.toNat_of_nonneg (by omega)
  have hflat := flat3_exact i j k N2.toNat N3.toNat ⟨hi.1, by omega⟩ ⟨hj.1, by omega⟩
    ⟨hk.1, by omega⟩ (by rw [hc2, hc3]; omega)
  rw [hc2, hc3] at hflat
  have hso : to_size_t ((i * N2 + j) * N3 + k) = ((i * N2 + j) * N3 + k).toNat :=
    to_size_t_of_nonneg hb0 (by omega)
  have hlt : ((i * N2 + j) * N3 + k).toNat < v.length := by omega
  refine ⟨?_, hlt⟩
  unfold multi_array.idx3
  rw [he1, he2, hs2, hs3, hflat, checked_eq _ _ _ _ _ hv, if_pos ⟨hb0, by rw [hso]; exact hlt⟩]

/-- The in-range accesses of a rank-2 array, as `rank3_access`. -/
theorem rank2_access {T : Type} (a : multi_array T 2) (h : Heap T) (p : Nat) (v : List T)
    (N1 N2 i j : Int) (hv : h.deref a.p_data_ = .ok (p, v))
    (he1 : a.extents_ 1 = to_size_t N2)
    (hlen : (v.length : Int) = N1 * N2) (hfit : N1 * N2 < 2147483648)
    (hi : 0 ≤ i ∧ i < N1) (hj : 0 ≤ j ∧ j < N2) :
    a.idx2 h i j = .ok (N2 * i + j).toNat ∧ (N2 * i + j).toNat < v.length := by
  obtain ⟨hb0, hb1⟩ := off2_bound N1 N2 i j hi hj
  have hcomm : i * N2 = N2 * i := mul_comm _ _
  rw [hcomm] at hb0 hb1
  have hA : N2 ≤ N1 * N2 := by
    have h1 : 0 ≤ (N1 - 1) * N2 := mul_nonneg (by omega) (by omega)
    have h2 : (N1 - 1) * N2 = N1 * N2 - N2 := by ring
    omega
  have hB : N1 ≤ N1 * N2 := by
    have h1 : 0 ≤ N1 * (N2 - 1) := mul_nonneg (by omega) (by omega)
    have h2 : N1 * (N2 - 1) = N1 * N2 - N1 := by ring
    omega
  have hs2 : to_size_t N2 = N2.toNat := to_size_t_of_nonneg (by omega) (by omega)
  have hc2 : ((N2.toNat : Nat) : Int) = N2 := Int.toNat_of_nonneg (by omega)
  have hflat := flat2_exact i j N2.toNat ⟨hi.1, by omega⟩ ⟨hj.1, by omega⟩
    (by rw [hc2]; omega)
  rw [hc2] at hflat
  have hso : to_size_t (N2 * i + j) = (N2 * i + j).toNat :=
    to_size_t_of_nonneg hb0 (by omega)
  have hlt : (N2 * i + j).toNat < v.length := by omega
  refine ⟨?_, hlt⟩
  unfold multi_array.idx2
  rw [he1, hs2, hflat, checked_eq _ _ _ _ _ hv, if_pos ⟨hb0, by rw [hso]; exact hlt⟩]

/-- A write at an in-range triple of a rank-3 array of the shape of
`rank3_access`, whatever its vector holds: the vector changes at the flat
offset only, the triple then reads the written value, and every other
in-range triple reads the element it read before. -/
theorem rank3_write_read {T : Type} (a : multi_array T 3) (h : Heap T) (p : Nat) (v : List T)
    (N1 N2 N3 i j k : Int) (x : T) (hv : h.deref a.p_data_ = .ok (p, v))
    (he1 : a.extents_ 1 = to_size_t N2) (he2 : a.extents_ 2 = to_size_t N3)
    (hlen : (v.length : Int) = N1 * N2 * N3) (hfit : N1 * N2 * N3 < 2147483648)
    (hi : 0 ≤ i ∧ i < N1) (hj : 0 ≤ j ∧ j < N2) (hk : 0 ≤ k ∧ k < N3) :
    ∃ h2, a.set3 h i j k x = .ok h2
      ∧ h2.deref a.p_data_ = .ok (p, v.set ((i * N2 + j) * N3 + k).toNat x)
      ∧ a.at3 h2 i j k = .ok x
      ∧ ∀ i1 j1 k1 : Int, 0 ≤ i1 ∧ i1 < N1 → 0 ≤ j1 ∧ j1 < N2 → 0 ≤ k1 ∧ k1 < N3 →
          ¬ (i1 = i ∧ j1 = j ∧ k1 = k) →
          ∃ y, v[((i1 * N2 + j1) * N3 + k1).toNat]? = some y
            ∧ a.at3 h i1 j1 k1 = .ok y ∧ a.at3 h2 i1 j1 k1 = .ok y := by
  obtain ⟨hidx, hlt⟩ := rank3_access a h p v N1 N2 N3 i j k hv he1 he2 hlen hfit hi hj hk
  have hv2 := deref_store_same h a.p_data_ p v (v.set ((i * N2 + j) * N3 + k).toNat x) hv
  have hlen2 : (((v.set ((i * N2 + j) * N3 + k).toNat x).length : Nat) : Int) = N1 * N2 * N3 := by
    rw [List.length_set]; exact hlen
  refine ⟨h.store p (v.set ((i * N2 + j) * N3 + k).toNat x), ?_, hv2, ?_, ?_⟩
  · unfold multi_array.set3
    rw [hidx]
    exact write_ok _ _ _ _ _ _ hv
  · obtain ⟨hidx2, -⟩ := rank3_access a _ p _ N1 N2 N3 i j k hv2 he1 he2 hlen2 hfit hi hj hk
    unfold multi_array.at3
    rw [hidx2, read_ok _ _ _ _ _ hv2, List.getElem?_set_self hlt]
  · intro i1 j1 k1 hi1 hj1 hk1 hne
    obtain ⟨hidx2, -⟩ := rank3_access a _ p _ N1 N2 N3 i1 j1 k1 hv2 he1 he2 hlen2 hfit
      hi1 hj1 hk1
    obtain ⟨hidx1, hlt1⟩ := rank3_access a h p v N1 N2 N3 i1 j1 k1 hv he1 he2 hlen hfit
      hi1 hj1 hk1
    have hb1 := (off3_bound N1 N2 N3 i1 j1 k1 hi1 hj1 hk1).1
    have hb := (off3_bound N1 N2 N3 i j k hi hj hk).1
    have hoff : ((i * N2 + j) * N3 + k).toNat ≠ ((i1 * N2 + j1) * N3 + k1).toNat := by
      intro heq
      have heq2 : (i1 * N2 + j1) * N3 + k1 = (i * N2 + j) * N3 + k := by omega
      exact hne (off3_inj N2 N3 i1 j1 k1 i j k hj1 hj hk1 hk heq2)
    refine ⟨v[((i1 * N2 + j1) * N3 + k1).toNat], List.getElem?_eq_getElem hlt1, ?_, ?_⟩
    · unfold multi_array.at3
      rw [hidx1, read_ok _ _ _ _ _ hv, List.getElem?_eq_getElem hlt1]
    · unfold multi_array.at3
      rw [hidx2, read_ok _ _ _ _ _ hv2, List.getElem?_set_ne hoff, List.getElem?_eq_getElem hlt1]

/-- The rank-2 analogue of `rank3_write_read`. -/
theorem rank2_write_read {T : Type} (a : multi_array T 2) (h : Heap T) (p : Nat) (v : List T)
    (N1 N2 i j : Int) (x : T) (hv : h.deref a.p_data_ = .ok (p, v))
    (he1 : a.extents_ 1 = to_size_t N2)
    (hlen : (v.length : Int) = N1 * N2) (hfit : N1 * N2 < 2147483648)
    (hi : 0 ≤ i ∧ i < N1) (hj : 0 ≤ j ∧ j < N2) :
    ∃ h2, a.set2 h i j x = .ok h2
      ∧ h2.deref a.p_data_ = .ok (p, v.set (N2 * i + j).toNat x)
      ∧ a.at2 h2 i j = .ok x
      ∧ ∀ i1 j1 : Int, 0 ≤ i1 ∧ i1 < N1 → 0 ≤ j1 ∧ j1 < N2 → ¬ (i1 = i ∧ j1 = j) →
          ∃ y, v[(N2 * i1 + j1).toNat]? = some y
            ∧ a.at2 h i1 j1 = .ok y ∧ a.at2 h2 i1 j1 = .ok y := by
  obtain ⟨hidx, hlt⟩ := rank2_access a h p v N1 N2 i j hv he1 hlen hfit hi hj
  have hv2 := deref_store_same h a.p_data_ p v (v.set (N2 * i + j).toNat x) hv
  have hlen2 : (((v.set (N2 * i + j).toNat x).length : Nat) : Int) = N1 * N2 := by
    rw [List.length_set]; exact hlen
  refine ⟨h.store p (v.set (N2 * i + j).toNat x), ?_, hv2, ?_, ?_⟩
  · unfold multi_array.set2
    rw [hidx]
    exact write_ok _ _ _ _ _ _ hv
  · obtain ⟨hidx2, -⟩ := rank2_access a _ p _ N1 N2 i j hv2 he1 hlen2 hfit hi hj
    unfold multi_array.at2
    rw [hidx2, read_ok _ _ _ _ _ hv2, List.getElem?_set_self hlt]
  · intro i1 j1 hi1 hj1 hne
    obtain ⟨hidx2, -⟩ := rank2_access a _ p _ N1 N2 i1 j1 hv2 he1 hlen2 hfit hi1 hj1
    obtain ⟨hidx1, hlt1⟩ := rank2_access a h p v N1 N2 i1 j1 hv he1 hlen hfit hi1 hj1
    have hb1 := (off2_bound N1 N2 i1 j1 hi1 hj1).1
    have hb := (off2_bound N1 N2 i j hi hj).1
    rw [mul_comm i1 N2] at hb1
    rw [mul_comm i N2] at hb
    have hoff : (N2 * i + j).toNat ≠ (N2 * i1 + j1).toNat := by
      intro heq
      have heq2 : i1 * N2 + j1 = i * N2 + j := by
        rw [mul_comm i1 N2, mul_comm i N2]; omega
      exact hne (off2_inj N2 i1 j1 i j hj1 hj heq2)
    refine ⟨v[(N2 * i1 + j1).toNat], List.getElem?_eq_getElem hlt1, ?_, ?_⟩
    · unfold multi_array.at2
      rw [hidx1, read_ok _ _ _ _ _ hv, List.getElem?_eq_getElem hlt1]
    · unfold multi_array.at2
      rw [hidx2, read_ok _ _ _ _ _ hv2, List.getElem?_set_ne hoff, List.getElem?_eq_getElem hlt1]

/-- C6: the three-extent constructor with `int` extents `N1`, `N2`, `N3` whose
product is below `2^31` yields an owning array whose vector has
`N1 * N2 * N3` elements.  For every rank-3 array of that shape, whatever its
vector holds (so also after any number of writes), every in-range index
triple `(i, j, k)` is addressed at the flat offset `(i*N2 + j)*N3 + k`; the
offset lies in `[0, N1*N2*N3)`; in-range triples with the same offset are
equal; writing `x` at `(i, j, k)` changes the vector at that offset only,
leaves the shape, and a read of `(i, j, k)` then returns `x`, while every
other in-range triple reads the element it read before the write.  The rank-2
accessor does the same with the offset `N2*i + j` for the in-range pair
`(i, j)` of an array with extents `N1`, `N2`. -/
theorem rank3_row_major {T : Type} [Zero T] (h : Heap T) (N1 N2 N3 i j k : Int) (x : T)
    (hfit : N1 * N2 * N3 < 2147483648) (hi : 0 ≤ i ∧ i < N1) (hj : 0 ≤ j ∧ j < N2)
    (hk : 0 ≤ k ∧ k < N3) :
    (∃ a h1 p v, multi_array.init3 N1 N2 N3 h = .ok (a, h1) ∧ a.view = false
      ∧ a.num_elements h1 = .ok (N1 * N2 * N3).toNat
      ∧ h1.deref a.p_data_ = .ok (p, v) ∧ a.extents_ 1 = to_size_t N2
      ∧ a.extents_ 2 = to_size_t N3 ∧ ((v.length : Nat) : Int) = N1 * N2 * N3)
    ∧ (∀ (a : multi_array T 3) (h1 : Heap T) (p : Nat) (v : List T),
        h1.deref a.p_data_ = .ok (p, v) → a.extents_ 1 = to_size_t N2 →
        a.extents_ 2 = to_size_t N3 → ((v.length : Nat) : Int) = N1 * N2 * N3 →
        a.idx3 h1 i j k = .ok ((i * N2 + j) * N3 + k).toNat
        ∧ (0 ≤ (i * N2 + j) * N3 + k ∧ (i * N2 + j) * N3 + k < N1 * N2 * N3)
        ∧ (∀ i1 j1 k1 : Int, 0 ≤ i1 ∧ i1 < N1 → 0 ≤ j1 ∧ j1 < N2 → 0 ≤ k1 ∧ k1 < N3 →
            (i1 * N2 + j1) * N3 + k1 = (i * N2 + j) * N3 + k → i1 = i ∧ j1 = j ∧ k1 = k)
        ∧ ∃ h2, a.set3 h1 i j k x = .ok h2
          ∧ h2.deref a.p_data_ = .ok (p, v.set ((i * N2 + j) * N3 + k).toNat x)
          ∧ a.at3 h2 i j k = .ok x
          ∧ ∀ i1 j1 k1 : Int, 0 ≤ i1 ∧ i1 < N1 → 0 ≤ j1 ∧ j1 < N2 → 0 ≤ k1 ∧ k1 < N3 →
              ¬ (i1 = i ∧ j1 = j ∧ k1 = k) →
              ∃ y, v[((i1 * N2 + j1) * N3 + k1).toNat]? = some y
                ∧ a.at3 h1 i1 j1 k1 = .ok y ∧ a.at3 h2 i1 j1 k1 = .ok y)
    ∧ (∃ a h1 p v, multi_array.init2 N1 N2 h = .ok ((a : multi_array T 2), h1)
      ∧ h1.deref a.p_data_ = .ok (p, v) ∧ a.extents_ 1 = to_size_t N2
      ∧ ((v.length : Nat) : Int) = N1 * N2)
    ∧ (∀ (a : multi_array T 2) (h1 : Heap T) (p : Nat) (v : List T),
        h1.deref a.p_data_ = .ok (p, v) → a.extents_ 1 = to_size_t N2 →
        ((v.length : Nat) : Int) = N1 * N2 →
        a.idx2 h1 i j = .ok (N2 * i + j).toNat
        ∧ (0 ≤ N2 * i + j ∧ N2 * i + j < N1 * N2)
        ∧ ∃ h2, a.set2 h1 i j x = .ok h2
          ∧ h2.deref a.p_data_ = .ok (p, v.set (N2 * i + j).toNat x)
          ∧ a.at2 h2 i j = .ok x
          ∧ ∀ i1 j1 : Int, 0 ≤ i1 ∧ i1 < N1 → 0 ≤ j1 ∧ j1 < N2 → ¬ (i1 = i ∧ j1 = j) →
              ∃ y, v[(N2 * i1 + j1).toNat]? = some y
                ∧ a.at2 h1 i1 j1 = .ok y ∧ a.at2 h2 i1 j1 = .ok y) := by
  have hP20 : 0 ≤ N1 * N2 := mul_nonneg (by omega) (by omega)
  have hP0 : 0 ≤ N1 * N2 * N3 := mul_nonneg hP20 (by omega)
  have hA : N1 * N2 ≤ N1 * N2 * N3 := by
    have h1 : 0 ≤ N1 * N2 * (N3 - 1) := mul_nonneg hP20 (by omega)
    have h2 : N1 * N2 * (N3 - 1) = N1 * N2 * N3 - N1 * N2 := by ring
    omega
  refine ⟨?_, ?_, ?_, ?_⟩
  · have hv : (h ++ [(⟨false, List.replicate (N1 * N2 * N3).toNat (0 : T)⟩ : vector_cell T)]).deref
        (some h.length) = .ok (h.length, List.replicate (N1 * N2 * N3).toNat (0 : T)) :=
      deref_fresh h _
    refine ⟨_, _, h.length, List.replicate (N1 * N2 * N3).toNat (0 : T),
      init3_ok N1 N2 N3 h (by omega) (by omega) (by omega) (by omega) hfit, rfl, ?_, hv, rfl, rfl,
      ?_⟩
    · unfold multi_array.num_elements
      rw [hv]
      simp [Except.map]
    · rw [List.length_replicate, Int.toNat_of_nonneg hP0]
  · intro a h1 p v hv he1 he2 hlen
    refine ⟨(rank3_access a h1 p v N1 N2 N3 i j k hv he1 he2 hlen hfit hi hj hk).1,
      off3_bound N1 N2 N3 i j k hi hj hk, ?_,
      rank3_write_read a h1 p v N1 N2 N3 i j k x hv he1 he2 hlen hfit hi hj hk⟩
    intro i1 j1 k1 hi1 hj1 hk1 heq
    exact off3_inj N2 N3 i1 j1 k1 i j k hj1 hj hk1 hk heq
  · have hv : (h ++ [(⟨false, List.replicate (N1 * N2).toNat (0 : T)⟩ : vector_cell T)]).deref
        (some h.length) = .ok (h.length, List.replicate (N1 * N2).toNat (0 : T)) :=
      deref_fresh h _
    refine ⟨_, _, h.length, List.replicate (N1 * N2).toNat (0 : T),
      init2_ok N1 N2 h (by omega) (by omega) (by omega), hv, rfl, ?_⟩
    rw [List.length_replicate, Int.toNat_of_nonneg hP20]
  · intro a h1 p v hv he1 hlen
    refine ⟨(rank2_access a h1 p v N1 N2 i j hv he1 hlen (by omega) hi hj).1, ?_,
      rank2_write_read a h1 p v N1 N2 i j x hv he1 hlen (by omega) hi hj⟩
    have := off2_bound N1 N2 i j hi hj
    rw [mul_comm i N2] at this
    exact this

/-- C6, an instance: extents `(2, 3, 4)`, the triple `(1, 2, 3)` and the
value `9`; the constructor on an empty free store, and the array
`demo_rank3`, whose triple `(0, 0, 1)` keeps its element. -/
theorem rank3_row_major_witness :
    ((2 : Int) * 3 * 4 < 2147483648 ∧ (0 ≤ (1 : Int) ∧ (1 : Int) < 2)
      ∧ (0 ≤ (2 : Int) ∧ (2 : Int) < 3) ∧ (0 ≤ (3 : Int) ∧ (3 : Int) < 4))
    ∧ (∃ a h1, multi_array.init3 2 3 4 ([] : Heap Int) = .ok (a, h1) ∧ a.view = false)
    ∧ demo_rank3.idx3 demo_heap 1 2 3 = .ok 23
    ∧ ∃ h2, demo_rank3.set3 demo_heap 1 2 3 9 = .ok h2 ∧ demo_rank3.at3 h2 1 2 3 = .ok 9
        ∧ ∃ y, demo_rank3.at3 demo_heap 0 0 1 = .ok y ∧ demo_rank3.at3 h2 0 0 1 = .ok y := by
  refine ⟨by decide, ?_⟩
  obtain ⟨⟨a, h1, -, -, ha, hview, -⟩, hgen, -, -⟩ :=
    rank3_row_major ([] : Heap Int) 2 3 4 1 2 3 9 (by decide) (by decide) (by decide) (by decide)
  obtain ⟨hidx, -, -, h2, hset, -, hat, hother⟩ :=
    hgen demo_rank3 demo_heap 1 (List.replicate 24 0) (by decide) (by decide) (by decide)
      (by decide)
  obtain ⟨y, -, hy1, hy2⟩ := hother 0 0 1 (by decide) (by decide) (by decide) (by decide)
  exact ⟨⟨a, h1, ha, hview⟩, hidx, h2, hset, hat, y, hy1, hy2⟩

/-! ## C7: what the accessors reject -/

/-- An access at a checked offset fails the assertion exactly when the
offset, an `int`, is outside `[0, size())`. -/
theorem read_checked_fails_iff {T : Type} {DIM : Nat} (a : multi_array T DIM) (h : Heap T)
    (off : Int) (p : Nat) (v : List T) (hv : h.deref a.p_data_ = .ok (p, v))
    (hoff : in_int_range off) :
    a.read h (a.checked h off) = .error .assertion_failed ↔ (off < 0 ∨ (v.length : Int) ≤ off) := by
  rw [read_checked _ _ _ _ _ hv]
  unfold in_int_range at hoff
  by_cases h0 : 0 ≤ off
  · have hs : to_size_t off = off.toNat := to_size_t_of_nonneg h0 (by omega)
    by_cases hc : off.toNat < v.length
    · rw [if_pos ⟨h0, by rw [hs]; exact hc⟩, List.getElem?_eq_getElem hc]
      constructor
      · intro hcon; cases hcon
      · intro hcon; omega
    · rw [if_neg (by rw [hs]; exact fun hcon => hc hcon.2)]
      constructor
      · intro _; omega
      · intro _; rfl
  · rw [if_neg (fun hcon => h0 hcon.1)]
    constructor
    · intro _; omega
    · intro _; rfl

/-- C7 (as stated, refuted): in the rank-2 array with extents `(2, 3)` the
index pair `(0, 4)` has its second index outside `[0, 3)`, yet the access is
not rejected: it addresses the flat offset `4`, the element `(1, 1)`, and
reads the `9` written there. -/
theorem out_of_bounds_index_accepted :
    (match multi_array.init2 2 3 ([] : Heap Int) with
      | .error e => .error e
      | .ok r =>
        match r.1.set2 r.2 1 1 9 with
        | .error e => .error e
        | .ok h2 => .ok (r.1.extent 1, r.1.idx2 h2 0 4, r.1.at2 h2 0 4))
      = (.ok (.ok 3, .ok 4, .ok 9) : Except Err (Except Err Nat × Except Err Nat × Except Err Int)) := by
  decide

/-- An access at a checked offset inside `[0, size())` returns the element of
the vector at that offset. -/
theorem read_checked_ok {T : Type} {DIM : Nat} (a : multi_array T DIM) (h : Heap T)
    (off : Int) (p : Nat) (v : List T) (hv : h.deref a.p_data_ = .ok (p, v))
    (hr : in_int_range off) (hoff : 0 ≤ off ∧ off < v.length) :
    ∃ x, v[off.toNat]? = some x ∧ a.read h (a.checked h off) = .ok x := by
  unfold in_int_range at hr
  have hlt : off.toNat < v.length := by omega
  have hs : to_size_t off = off.toNat := to_size_t_of_nonneg hoff.1 (by omega)
  refine ⟨v[off.toNat], List.getElem?_eq_getElem hlt, ?_⟩
  rw [read_checked _ _ _ _ _ hv, if_pos ⟨hoff.1, by rw [hs]; exact hlt⟩,
    List.getElem?_eq_getElem hlt]

/-- C7 (amended): for arrays of rank 1, 2 and 3 whose pointers refer to the
vectors `v1`, `v2`, `v3`, element access fails the assertion exactly when the
flat offset, as the accessor computes it in `int`, is outside
`[0, num_elements())`, and an access whose flat offset is inside that range
returns the element of the vector at that offset, whatever the single
indices are.  The flat offset of rank 1 is the index itself, so for the
array built with the extent `N1` the access fails exactly when the index is
outside `[0, N1)`. -/
theorem access_rejected_iff {T : Type} [Zero T] (h : Heap T) (N1 : Int) (a1 : multi_array T 1)
    (a2 : multi_array T 2) (a3 : multi_array T 3) (p1 p2 p3 : Nat) (v1 v2 v3 : List T)
    (i j k : Int) (hN : 0 ≤ N1 ∧ N1 < 2147483648) (hi : in_int_range i)
    (h1 : h.deref a1.p_data_ = .ok (p1, v1)) (h2 : h.deref a2.p_data_ = .ok (p2, v2))
    (h3 : h.deref a3.p_data_ = .ok (p3, v3)) :
    ((a1.at1 h i = .error .assertion_failed ↔ (i < 0 ∨ (v1.length : Int) ≤ i))
      ∧ ((0 ≤ i ∧ i < v1.length) → ∃ x, v1[i.toNat]? = some x ∧ a1.at1 h i = .ok x))
    ∧ (∃ b hb, multi_array.init1 N1 h = .ok ((b : multi_array T 1), hb)
      ∧ b.extent 0 = .ok N1.toNat ∧ b.num_elements hb = .ok N1.toNat
      ∧ (b.at1 hb i = .error .assertion_failed ↔ (i < 0 ∨ N1 ≤ i))
      ∧ ((0 ≤ i ∧ i < N1) → b.at1 hb i = .ok 0))
    ∧ ((a2.at2 h i j = .error .assertion_failed ↔
        (to_int ((a2.extents_ 1 * to_size_t i + to_size_t j) % 18446744073709551616) < 0
          ∨ (v2.length : Int)
            ≤ to_int ((a2.extents_ 1 * to_size_t i + to_size_t j) % 18446744073709551616)))
      ∧ ((0 ≤ to_int ((a2.extents_ 1 * to_size_t i + to_size_t j) % 18446744073709551616)
          ∧ to_int ((a2.extents_ 1 * to_size_t i + to_size_t j) % 18446744073709551616)
            < v2.length) →
        ∃ x, v2[(to_int ((a2.extents_ 1 * to_size_t i + to_size_t j)
              % 18446744073709551616)).toNat]? = some x ∧ a2.at2 h i j = .ok x))
    ∧ ((a3.at3 h i j k = .error .assertion_failed ↔
        (to_int (((to_size_t i * a3.extents_ 1 + to_size_t j) * a3.extents_ 2 + to_size_t k)
            % 18446744073709551616) < 0
          ∨ (v3.length : Int)
            ≤ to_int (((to_size_t i * a3.extents_ 1 + to_size_t j) * a3.extents_ 2 + to_size_t k)
              % 18446744073709551616)))
      ∧ ((0 ≤ to_int (((to_size_t i * a3.extents_ 1 + to_size_t j) * a3.extents_ 2
              + to_size_t k) % 18446744073709551616)
          ∧ to_int (((to_size_t i * a3.extents_ 1 + to_size_t j) * a3.extents_ 2
              + to_size_t k) % 18446744073709551616) < v3.length) →
        ∃ x, v3[(to_int (((to_size_t i * a3.extents_ 1 + to_size_t j) * a3.extents_ 2
              + to_size_t k) % 18446744073709551616)).toNat]? = some x
          ∧ a3.at3 h i j k = .ok x)) := by
  refine ⟨⟨?_, ?_⟩, ⟨_, _, init1_ok N1 h hN.1 hN.2, ?_, ?_, ?_, ?_⟩, ⟨?_, ?_⟩, ⟨?_, ?_⟩⟩
  · unfold multi_array.at1 multi_array.idx1
    exact read_checked_fails_iff a1 h i p1 v1 h1 hi
  · intro hin
    unfold multi_array.at1 multi_array.idx1
    exact read_checked_ok a1 h i p1 v1 h1 hi hin
  · unfold multi_array.extent
    rw [dif_pos (by omega)]
    simp [to_size_t_of_nonneg hN.1 (by omega : N1 < 18446744073709551616)]
  · unfold multi_array.num_elements
    rw [deref_fresh]
    simp [Except.map]
  · have hv := deref_fresh h (⟨false, List.replicate N1.toNat (0 : T)⟩ : vector_cell T)
    have hiff := read_checked_fails_iff
      (⟨true, some h.length, ![to_size_t N1]⟩ : multi_array T 1) _ i _ _ hv hi
    unfold multi_array.at1 multi_array.idx1
    rw [hiff, List.length_replicate, Int.toNat_of_nonneg hN.1]
  · intro hin
    have hv := deref_fresh h (⟨false, List.replicate N1.toNat (0 : T)⟩ : vector_cell T)
    obtain ⟨x, hx, hread⟩ := read_checked_ok
      (⟨true, some h.length, ![to_size_t N1]⟩ : multi_array T 1) _ i _ _ hv hi
      (by rw [List.length_replicate, Int.toNat_of_nonneg hN.1]; exact hin)
    have hx0 : x = 0 := by
      rw [List.getElem?_replicate] at hx
      split at hx
      · cases hx; rfl
      · cases hx
    unfold multi_array.at1 multi_array.idx1
    rw [hread, hx0]
  · unfold multi_array.at2 multi_array.idx2
    exact read_checked_fails_iff a2 h _ p2 v2 h2 (to_int_range _)
  · intro hin
    unfold multi_array.at2 multi_array.idx2
    exact read_checked_ok a2 h _ p2 v2 h2 (to_int_range _) hin
  · unfold multi_array.at3 multi_array.idx3
    exact read_checked_fails_iff a3 h _ p3 v3 h3 (to_int_range _)
  · intro hin
    unfold multi_array.at3 multi_array.idx3
    exact read_checked_ok a3 h _ p3 v3 h3 (to_int_range _) hin

/-- C7 (amended), an instance on `demo_heap3`: the index `2` is rejected by
`demo_rank1`, whose extent is `2`; the pair `(2, 0)` is rejected by
`demo_rank2`, its flat offset `6` being the number of elements; the pair
`(0, 4)`, whose flat offset is `4`, is answered. -/
theorem access_rejected_iff_witness :
    ((0 ≤ (2 : Int) ∧ (2 : Int) < 2147483648) ∧ in_int_range 2
      ∧ demo_heap3.deref demo_rank1.p_data_ = .ok (2, [1, 2])
      ∧ demo_heap3.deref demo_rank2.p_data_ = .ok (0, List.replicate 6 0)
      ∧ demo_heap3.deref demo_rank3.p_data_ = .ok (1, List.replicate 24 0))
    ∧ demo_rank1.at1 demo_heap3 2 = .error .assertion_failed
    ∧ demo_rank2.at2 demo_heap3 2 0 = .error .assertion_failed
    ∧ (∃ x, demo_rank2.at2 demo_heap3 0 4 = .ok x) := by
  refine ⟨⟨by decide, by decide, by decide, by decide, by decide⟩, ?_, ?_, ?_⟩
  · exact (access_rejected_iff demo_heap3 2 demo_rank1 demo_rank2 demo_rank3 2 0 1 [1, 2]
      (List.replicate 6 0) (List.replicate 24 0) 2 0 0 (by decide) (by decide) (by decide)
      (by decide) (by decide)).1.1.mpr (by decide)
  · exact (access_rejected_iff demo_heap3 2 demo_rank1 demo_rank2 demo_rank3 2 0 1 [1, 2]
      (List.replicate 6 0) (List.replicate 24 0) 2 0 0 (by decide) (by decide) (by decide)
      (by decide) (by decide)).2.2.1.1.mpr (by decide)
  · obtain ⟨x, -, hx⟩ := (access_rejected_iff demo_heap3 2 demo_rank1 demo_rank2 demo_rank3
      2 0 1 [1, 2] (List.replicate 6 0) (List.replicate 24 0) 0 4 0 (by decide) (by decide)
      (by decide) (by decide) (by decide)).2.2.1.2 (by decide)
    exact ⟨x, hx⟩

/-! ## C8 and C9: `resize` -/

/-- C8 (the code at the failing input): the default-constructed rank-2 array
is an owner (`view()` is false), and `resize` with the extents
`(65536, 32768)` raises `std::length_error`: the `int` accumulator of line 93
holds `-2^31` instead of the product `2^31`, and converts to a `size_t` above
`max_size()`. -/
theorem resize_owner_raises :
    (fresh_rank2.1.view, multi_array.accumulate [65536, 32768] 1,
      (fresh_rank2.1.resize ![65536, 32768] fresh_rank2.2).1)
      = (false, -2147483648, .error .length_error) := by
  decide

/-- The member `resize` on an owner whose pointer refers to a vector, for
extents whose product is below `2^31`: the call returns, the extents are the
given ones, and the vector is resized to their product. -/
theorem resize_of_fit {T : Type} [Zero T] {DIM : Nat} (a : multi_array T DIM)
    (dims : Fin DIM → Nat) (h : Heap T) (p : Nat) (c : vector_cell T) (ho : a.owner_ = true)
    (hp : a.p_data_ = some p) (hc : h[p]? = some c)
    (hfit : (List.ofFn dims).prod < 2147483648) :
    a.resize dims h = (.ok (), ⟨true, some p, dims⟩,
      h.set p ⟨c.deleted, vector_resize c.elems (List.ofFn dims).prod⟩) := by
  rw [resize_owner a dims h p c ho hp hc, accumulate_of_lt _ hfit,
    to_size_t_natCast (by omega), if_neg (by unfold max_size; omega)]

/-- The rejection of views by `resize`: for every array with `view() == true`
and every extents list, `resize` raises `std::runtime_error` and leaves the
array and the free store as they were; for every array with `view() == false`
whose pointer refers to a vector, `resize` returns when the product of the
extents is below `2^31`, where the `int` accumulator holds the product. -/
theorem resize_view_rejected {T : Type} [Zero T] {DIM : Nat} (a : multi_array T DIM)
    (dims : Fin DIM → Nat) (h : Heap T) :
    (a.view = true → a.resize dims h = (.error .runtime_error, a, h))
      ∧ (a.view = false → (∃ r, h.deref a.p_data_ = .ok r) →
          (List.ofFn dims).prod < 2147483648 → (a.resize dims h).1 = .ok ()) := by
  constructor
  · intro hview
    unfold multi_array.view at hview
    unfold multi_array.resize
    rw [hview]
    rfl
  · rintro hview ⟨r, hr⟩ hfit
    unfold multi_array.view at hview
    have ho : a.owner_ = true := by
      cases hb : a.owner_ with
      | true => rfl
      | false => rw [hb] at hview; cases hview
    obtain ⟨hq, c, hc, -⟩ := deref_eq_ok hr
    rw [resize_of_fit a dims h r.1 c ho hq hc hfit]

/-- An instance of `resize_view_rejected`: the view `demo_view` is rejected
and left as it was; the owner `demo_rank2` is resized to `(4, 5)`. -/
theorem resize_view_rejected_witness :
    (demo_view.view = true
      ∧ demo_view.resize ![4, 5] demo_heap = (.error .runtime_error, demo_view, demo_heap))
    ∧ (demo_rank2.view = false ∧ (∃ r, demo_heap.deref demo_rank2.p_data_ = .ok r)
      ∧ (List.ofFn ![4, 5]).prod < 2147483648
      ∧ (demo_rank2.resize ![4, 5] demo_heap).1 = .ok ()) :=
  ⟨⟨rfl, (resize_view_rejected demo_view ![4, 5] demo_heap).1 rfl⟩,
    rfl, ⟨(0, List.replicate 6 0), by decide⟩, by decide,
    (resize_view_rejected demo_rank2 ![4, 5] demo_heap).2 rfl
      ⟨(0, List.replicate 6 0), by decide⟩ (by decide)⟩

/-- C9 (the code at the failing input): `resize` of the default-constructed
rank-2 owner with the extents `(65536, 65536)` returns; afterwards `extent(0)`
and `extent(1)` are `65536` and `num_elements()` is `0`, whereas the product of
the extents is `4294967296`: the `int` accumulator of line 93 holds `0`. -/
theorem resize_count_truncated :
    ((fresh_rank2.1.resize ![65536, 65536] fresh_rank2.2).1,
      (fresh_rank2.1.resize ![65536, 65536] fresh_rank2.2).2.1.extent 0,
      (fresh_rank2.1.resize ![65536, 65536] fresh_rank2.2).2.1.extent 1,
      (fresh_rank2.1.resize ![65536, 65536] fresh_rank2.2).2.1.num_elements
        (fresh_rank2.1.resize ![65536, 65536] fresh_rank2.2).2.2,
      multi_array.accumulate [65536, 65536] 1,
      65536 * 65536)
      = (.ok (), .ok 65536, .ok 65536, .ok 0, 0, 4294967296) := by
  decide

/-! ## C10: copy construction and assignment -/

/-- The copy constructor is a deep copy: for an owner `src` whose pointer
refers to a vector with elements `v`, the copy is an owner with the same
extents whose pointer refers to a new live vector with the elements `v`, and
replacing the elements of either vector leaves the other. -/
theorem copy_is_deep {T : Type} {DIM : Nat} (src : multi_array T DIM) (h : Heap T) (q : Nat)
    (v : List T) (ho : src.owner_ = true) (hv : h.deref src.p_data_ = .ok (q, v)) :
    ∃ dst h1, src.copy h = .ok (dst, h1) ∧ dst.view = false ∧ dst.extents_ = src.extents_
      ∧ h1[h.length]? = some ⟨false, v⟩
      ∧ h1.deref dst.p_data_ = .ok (h.length, v) ∧ h1.deref src.p_data_ = .ok (q, v)
      ∧ dst.num_elements h1 = src.num_elements h1
      ∧ (∀ w, (h1.store h.length w).deref src.p_data_ = .ok (q, v))
      ∧ (∀ w, (h1.store q w).deref dst.p_data_ = .ok (h.length, v)) := by
  obtain ⟨hq, c, hc, hce⟩ := deref_eq_ok hv
  simp only at hq hc hce
  have hlt : q < h.length := (List.getElem?_eq_some_iff.mp hc).1
  have hfresh : (h ++ [(⟨false, c.elems⟩ : vector_cell T)])[h.length]? = some ⟨false, v⟩ := by
    rw [hce]; simp
  have hold : (h ++ [(⟨false, c.elems⟩ : vector_cell T)])[q]? = some c := by
    rw [List.getElem?_append_left hlt]; exact hc
  have hd1 : (h ++ [(⟨false, c.elems⟩ : vector_cell T)]).deref (some h.length)
      = .ok (h.length, v) := deref_some _ _ _ hfresh
  have hd2 : (h ++ [(⟨false, c.elems⟩ : vector_cell T)]).deref src.p_data_ = .ok (q, v) := by
    rw [hq, deref_some _ _ _ hold, hce]
  refine ⟨_, _, copy_owner src h q c ho hq hc, rfl, rfl, hfresh, hd1, hd2, ?_, ?_, ?_⟩
  · unfold multi_array.num_elements
    rw [hd1, hd2]
    rfl
  · intro w
    rw [hq, deref_store_other _ _ _ _ (by omega), ← hq]
    exact hd2
  · intro w
    rw [deref_store_other _ _ _ _ (by omega)]
    exact hd1

/-- C10 (the code at the failing input): after
`multi_array<int, 1> dst(1), src(1); src(0) = 5;` the array `dst` points to
the vector at address `0` and `src` to the vector at address `1`.  In
`dst = src;` line 65 deletes the vector at address `0`, the pointer of `dst`
keeps that address, and line 73 copy-assigns into the deleted vector: the
assignment is a use after free.  The copy constructor, on the same source,
allocates a new live vector (address `2`) for the copy. -/
theorem assign_copies_into_deleted_vector :
    two_owners.map (fun s => (s.1.p_data_, s.2.1.p_data_, s.2.2))
        = .ok (some 0, some 1, [⟨false, [0]⟩, ⟨false, [5]⟩])
      ∧ two_owners.map (fun s => s.2.2.delete 0) = .ok [⟨true, []⟩, ⟨false, [5]⟩]
      ∧ two_owners.bind (fun s =>
          (s.1.assign s.2.1 s.2.2).map (fun r => (r.1.view, r.1.p_data_, r.2)))
        = .error .undefined_behaviour
      ∧ two_owners.bind (fun s =>
          (s.2.1.copy s.2.2).map (fun r => (r.1.view, r.1.p_data_, r.2)))
        = .ok (false, some 2, [⟨false, [0]⟩, ⟨false, [5]⟩, ⟨false, [5]⟩]) := by
  decide

/-! ## C17: `resize` keeps the flat prefix -/

theorem vector_resize_length {T : Type} [Zero T] (v : List T) (n : Nat) :
    (vector_resize v n).length = n := by
  unfold vector_resize
  rw [List.length_append, List.length_take, List.length_replicate]
  omega

theorem vector_resize_prefix {T : Type} [Zero T] (v : List T) (n q : Nat) (hq : q < min v.length n) :
    (vector_resize v n)[q]? = v[q]? := by
  unfold vector_resize
  have h1 : q < (v.take n).length := by simp; omega
  rw [List.getElem?_append_left h1, List.getElem?_take]
  simp
  omega

theorem vector_resize_fill {T : Type} [Zero T] (v : List T) (n q : Nat) (h1 : v.length ≤ q)
    (h2 : q < n) : (vector_resize v n)[q]? = some 0 := by
  unfold vector_resize
  have hl : (v.take n).length = v.length := by simp; omega
  rw [List.getElem?_append_right (by omega), hl, List.getElem?_replicate, if_pos (by omega)]

/-- C17: for every owning array whose vector has the elements `v` and every
extents list whose product `m` is below `2^31`, `resize` returns, the vector
then has `m` elements, the element at each flat position below
`min(v.length, m)` is the one that was there before the call, and every flat
position from `v.length` up to `m` holds the zero of the element type. -/
theorem resize_keeps_prefix {T : Type} [Zero T] {DIM : Nat} (a : multi_array T DIM)
    (dims : Fin DIM → Nat) (h : Heap T) (p : Nat) (v : List T) (ho : a.view = false)
    (hv : h.deref a.p_data_ = .ok (p, v)) (hfit : (List.ofFn dims).prod < 2147483648) :
    ∃ a1 h1 w, a.resize dims h = (.ok (), a1, h1)
      ∧ a1.view = false ∧ a1.extents_ = dims
      ∧ h1.deref a1.p_data_ = .ok (p, w)
      ∧ a1.num_elements h1 = .ok (List.ofFn dims).prod
      ∧ (∀ q, q < min v.length (List.ofFn dims).prod → w[q]? = v[q]?)
      ∧ (∀ q, v.length ≤ q → q < (List.ofFn dims).prod → w[q]? = some 0) := by
  unfold multi_array.view at ho
  have ho2 : a.owner_ = true := by
    cases hb : a.owner_ with
    | true => rfl
    | false => rw [hb] at ho; cases ho
  obtain ⟨hq, c, hc, hce⟩ := deref_eq_ok hv
  simp only at hq hc hce
  have hlt : p < h.length := (List.getElem?_eq_some_iff.mp hc).1
  have hd : Heap.deref (h.set p ⟨c.deleted, vector_resize c.elems (List.ofFn dims).prod⟩)
      (some p) = .ok (p, vector_resize v (List.ofFn dims).prod) := by
    rw [← hce]
    exact deref_some _ _ ⟨c.deleted, vector_resize c.elems (List.ofFn dims).prod⟩
      (List.getElem?_set_self hlt)
  refine ⟨_, _, vector_resize v (List.ofFn dims).prod,
    resize_of_fit a dims h p c ho2 hq hc hfit, rfl, rfl, hd, ?_, ?_, ?_⟩
  · unfold multi_array.num_elements
    rw [hd]
    simp [Except.map, vector_resize_length]
  · intro q hq2
    exact vector_resize_prefix v _ q hq2
  · intro q h1 h2
    exact vector_resize_fill v _ q h1 h2

/-- C17, an instance: the rank-2 owner `demo_rank2` (6 elements) resized to
the extents `(4, 5)`. -/
theorem resize_keeps_prefix_witness :
    (demo_rank2.view = false ∧ demo_heap.deref demo_rank2.p_data_ = .ok (0, List.replicate 6 0)
      ∧ (List.ofFn ![4, 5]).prod < 2147483648)
    ∧ ∃ a1 h1 w, demo_rank2.resize ![4, 5] demo_heap = (.ok (), a1, h1)
      ∧ h1.deref a1.p_data_ = .ok (0, w)
      ∧ a1.num_elements h1 = .ok (List.ofFn ![4, 5]).prod := by
  refine ⟨⟨rfl, by decide, by decide⟩, ?_⟩
  obtain ⟨a1, h1, w, hr, -, -, hd, hn, -, -⟩ :=
    resize_keeps_prefix demo_rank2 ![4, 5] demo_heap 0 (List.replicate 6 0) rfl (by decide)
      (by decide)
  exact ⟨a1, h1, w, hr, hd, hn⟩

/-! ## The constructor -/

/-- The loader returns for a dataset of the right rank with fewer than
`2^31` values. -/
theorem load_multi_array_of_loadable {T : Type} [Zero T] (DIM : Nat) (ds : Dataset T)
    (h : Heap T) (hl : ds.loadable DIM) :
    internal.load_multi_array DIM ds h
      = .ok (⟨true, some h.length, fun i => ds.dims.getD i.val 0⟩,
          h ++ [⟨false, ds.payload⟩, ⟨true, []⟩]) := by
  obtain ⟨hdim, hfit⟩ := hl
  unfold internal.load_multi_array
  rw [if_neg (by omega), if_neg (not_not.mpr hdim)]
  have hcell : (h ++ [(⟨false, []⟩ : vector_cell T)])[h.length]? = some ⟨false, []⟩ := by simp
  rw [init0_eq]
  simp only
  rw [resize_owner _ _ _ h.length _ rfl rfl hcell, ofFn_getD DIM ds.dims hdim,
    accumulate_of_lt _ hfit, to_size_t_natCast (by omega), if_neg (by unfold max_size; omega)]
  have hset : (h ++ [(⟨false, []⟩ : vector_cell T)]).set h.length
      ⟨false, vector_resize [] ds.dims.prod⟩
      = h ++ [⟨false, List.replicate ds.dims.prod 0⟩] := by
    simp [vector_resize]
  simp only
  rw [hset]
  have hcell2 : (h ++ [(⟨false, List.replicate ds.dims.prod 0⟩ : vector_cell T)])[h.length]?
      = some ⟨false, List.replicate ds.dims.prod 0⟩ := by simp
  rw [h5d_read_eq _ _ _ h.length _ rfl hcell2]
  have hsz := ds.size_eq
  simp only [List.length_replicate]
  rw [if_pos (by omega), drop_replicate_of_le _ _ _ (by omega : ds.dims.prod ≤ ds.payload.length)]
  simp only [List.append_nil]
  have hset2 : (h ++ [(⟨false, List.replicate ds.dims.prod 0⟩ : vector_cell T)]).set
      h.length ⟨false, ds.payload⟩ = h ++ [⟨false, ds.payload⟩] := by
    simp
  rw [hset2]
  have hcell3 : (h ++ [(⟨false, ds.payload⟩ : vector_cell T)])[h.length]?
      = some ⟨false, ds.payload⟩ := by simp
  rw [copy_owner _ _ h.length _ rfl rfl hcell3]
  simp [multi_array.destroy, Heap.delete]

/-- An assignment `member = load_multi_array<DIM>(...)` to a member that
holds a vector, for a dataset the loader accepts, is the use after free of
`operator=`. -/
theorem load_into_undefined {T : Type} [Zero T] {DIM : Nat} (member : multi_array T DIM)
    (ds : Dataset T) (h : Heap T) (p : Nat) (hp : member.p_data_ = some p)
    (hl : ds.loadable DIM) :
    internal.load_into member ds h = .error .undefined_behaviour := by
  unfold internal.load_into
  rw [load_multi_array_of_loadable DIM ds h hl]
  simp only
  rw [assign_use_after_free member _ _ p hp rfl]

/-- The constructor of `basis` returns for no file: its first statement that
assigns to an array member, `sl_ = load_multi_array<1>(...)` on line 278,
never returns. -/
theorem init_never_returns {R : Type} [Zero R] (s : Store R) (st : basis R × Mem R) :
    basis.init s ≠ .ok st := by
  intro h
  unfold basis.init basis.body at h
  simp only [basis.members_init, init0_eq] at h
  obtain ⟨sl, h1, -⟩ := bind_eq_ok h
  exact load_into_never_returns _ _ _ 0 rfl sl h1

/-- For a file whose `/sl` dataset has rank 1 and fewer than `2^31` values
the constructor of `basis` ends in the use after free of line 73, reached
from line 278. -/
theorem init_undefined {R : Type} [Zero R] (s : Store R) (hl : s.sl.loadable 1) :
    basis.init s = .error .undefined_behaviour := by
  unfold basis.init basis.body
  simp only [basis.members_init, init0_eq]
  rw [load_into_undefined _ s.sl _ 0 rfl hl]
  rfl

/-! ## C11 and C12: the shapes of a constructed basis -/

/-- No section contains a coordinate greater than every section edge. -/
theorem find_section_none {R : Type} [LinearOrderedRing R] (x : R) (edges : List Int) (s : Nat)
    (hx : ∀ e ∈ edges, ((e : Int) : R) < x) : find_section x edges s = none := by
  induction edges generalizing s with
  | nil => rfl
  | cons a rest ih =>
    cases rest with
    | nil => rfl
    | cons b rest2 =>
      have hb : ((b : Int) : R) < x := hx b (by simp)
      unfold find_section
      rw [if_neg (fun hc => absurd hc.2 (not_le.mpr hb))]
      exact ih (s + 1) (fun e he => hx e (List.mem_cons_of_mem a he))

/-- A loop whose body keeps a property of the state keeps it. -/
theorem for_int_preserves {σ : Type} (body : Int → σ → Except Err σ) (P : σ → Prop)
    (hbody : ∀ i s s1, P s → body i s = .ok s1 → P s1) (fuel i : Nat) (s s1 : σ) (hs : P s)
    (hr : basis.for_int body fuel i s = .ok s1) : P s1 := by
  induction fuel generalizing i s with
  | zero =>
    unfold basis.for_int at hr
    cases hr
    exact hs
  | succ n ih =>
    unfold basis.for_int at hr
    cases hb : body i s with
    | error e => rw [hb] at hr; cases hr
    | ok s2 =>
      rw [hb] at hr
      simp only at hr
      split at hr
      · cases hr
      · exact ih (i + 1) s2 (hbody i s s2 hs hb) hr

theorem store_length {T : Type} (h : Heap T) (p : Nat) (v : List T) :
    (h.store p v).length = h.length := by
  unfold Heap.store
  split
  · simp
  · rfl

/-- A write through an accessor keeps the number of vectors. -/
theorem write_length {T : Type} {DIM : Nat} (a : multi_array T DIM) (h h1 : Heap T)
    (o : Except Err Nat) (x : T) (hw : a.write h o x = .ok h1) : h1.length = h.length := by
  unfold multi_array.write at hw
  split at hw
  · cases hw
    exact store_length _ _ _
  · cases hw
  · cases hw

/-- The two-extent constructor, when it returns, returns an owner whose
pointer is the address of a new vector. -/
theorem init2_eq_ok {T : Type} [Zero T] {N1 N2 : Int} {h : Heap T}
    {r : multi_array T 2 × Heap T} (hr : multi_array.init2 N1 N2 h = .ok r) :
    r.1.owner_ = true ∧ r.1.p_data_ = some h.length ∧ r.2.length = h.length + 1
      ∧ r.1.extents_ = ![to_size_t N1, to_size_t N2] := by
  unfold multi_array.init2 multi_array.new_sized at hr
  split at hr
  · cases hr
  rename_i q hq
  split at hq
  · cases hq
  split at hq
  · cases hq
  cases hq
  cases hr
  exact ⟨rfl, rfl, by simp [Heap.new_vector], rfl⟩

/-- The slice `get_l_data` returns, when it returns, is an owner whose
pointer refers to a vector. -/
theorem get_l_data_valid {R : Type} [Zero R] {l : Int} {_data : multi_array R 3} {h : Heap R}
    {r : multi_array R 2 × Heap R} (hr : basis.get_l_data l _data h = .ok r) :
    r.1.owner_ = true ∧ r.1.p_data_ = some h.length ∧ h.length < r.2.length := by
  unfold basis.get_l_data at hr
  split at hr
  · cases hr
  rename_i a ha
  obtain ⟨h1, h2, h3, -⟩ := init2_eq_ok ha
  split at hr
  · cases hr
  rename_i h4 hloop
  cases hr
  refine ⟨h1, h2, ?_⟩
  have hP := for_int_preserves _ (fun s : Heap R => h.length < s.length) ?_ _ _ _ _
    (by show h.length < a.2.length; omega) hloop
  · exact hP
  · intro i s s1 hs hb
    refine for_int_preserves _ (fun s : Heap R => h.length < s.length) ?_ _ _ _ _ hs hb
    intro j t t1 ht hbj
    simp only at hbj
    split at hbj
    · cases hbj
    · have := write_length _ _ _ _ _ hbj
      show h.length < t1.length
      omega

/-- With `_interpolate` as the specification describes it, on any state of a
basis whose `ulx` family has the section edges `edges`, for every `x` greater
than every edge: `ulx(0, x)` returns no value; it raises the domain error
when the slice `0` can be extracted, and otherwise fails as the extraction of
the slice fails. -/
theorem ulx_out_of_domain {R : Type} [LinearOrderedRing R] (poly : List R → Int → Int → R → R)
    (b : basis R) (m : Mem R) (x : R) (pe : Nat) (edges : List Int)
    (he : m.i.deref b.ulx_.section_edges.p_data_ = .ok (pe, edges))
    (hx : ∀ e ∈ edges, ((e : Int) : R) < x) :
    (∀ r, basis.get_l_data 0 b.ulx_.data m.d = .ok r →
        basis.ulx (spec_interpolate poly) b m 0 x = .error .domain_error)
      ∧ (∀ e, basis.get_l_data 0 b.ulx_.data m.d = .error e →
        basis.ulx (spec_interpolate poly) b m 0 x = .error e) := by
  have hedges : b.ulx_.section_edges.snapshot m.i
      = .ok (b.ulx_.section_edges.extents_, edges) := by
    unfold multi_array.snapshot
    rw [he]
  have hcall : ∀ y : R, (∀ e ∈ edges, ((e : Int) : R) < y) →
      (∀ r, basis.get_l_data 0 b.ulx_.data m.d = .ok r →
        basis._interpolate (spec_interpolate poly) m y 0 b.ulx_.data b.ulx_.section_edges
          = .error .domain_error)
      ∧ (∀ e, basis.get_l_data 0 b.ulx_.data m.d = .error e →
        basis._interpolate (spec_interpolate poly) m y 0 b.ulx_.data b.ulx_.section_edges
          = .error e) := by
    intro y hy
    constructor
    · intro r hr
      obtain ⟨-, hp, hlt⟩ := get_l_data_valid hr
      have hcell : r.2[m.d.length]? = some (r.2[m.d.length]) := List.getElem?_eq_getElem hlt
      have hsnap : r.1.snapshot r.2 = .ok (r.1.extents_, (r.2[m.d.length]).elems) := by
        unfold multi_array.snapshot
        rw [hp, deref_some _ _ _ hcell]
      unfold basis._interpolate
      rw [hr]
      simp only
      rw [hsnap, hedges]
      simp only
      unfold spec_interpolate
      rw [find_section_none y _ 0 hy]
    · intro e he
      unfold basis._interpolate
      rw [he]
  unfold basis.ulx
  by_cases h0 : x ≥ 0
  · rw [if_pos h0]
    exact hcall x hx
  · rw [if_neg h0]
    have hneg : ∀ e ∈ edges, ((e : Int) : R) < -x := by
      intro e he
      have h2 : x < 0 := not_le.mp h0
      have h3 : (0 : R) < -x := neg_pos.mpr h2
      exact lt_trans (lt_trans (hx e he) h2) h3
    obtain ⟨hA, hB⟩ := hcall (-x) hneg
    constructor
    · intro r hr
      rw [hA r hr]
      rfl
    · intro e he
      rw [hB e he]
      rfl

/-- A loop of `n` iterations, `n` below `2^31`, whose body takes the
invariant at `i` to the invariant at `i + 1`, returns and establishes the
invariant at `n`. -/
theorem for_int_inv {σ : Type} (body : Int → σ → Except Err σ) (Q : Nat → σ → Prop) (n : Nat)
    (hn : n < 2147483648)
    (hstep : ∀ i s, i < n → Q i s → ∃ s1, body i s = .ok s1 ∧ Q (i + 1) s1)
    (fuel i : Nat) (s : σ) (hi : i + fuel = n) (hs : Q i s) :
    ∃ s1, basis.for_int body fuel i s = .ok s1 ∧ Q n s1 := by
  induction fuel generalizing i s with
  | zero =>
    have : i = n := by omega
    subst this
    exact ⟨s, rfl, hs⟩
  | succ k ih =>
    obtain ⟨s1, hb, hq⟩ := hstep i s (by omega) hs
    unfold basis.for_int
    rw [hb]
    simp only
    rw [if_neg (by omega)]
    exact ih (i + 1) s1 (by omega) hq

/-- The slice buffer after `c` elements have been copied from the position
`base` of `v`: the copied elements, then zeros up to `n` elements. -/
theorem slice_fill_step {T : Type} [Zero T] (v : List T) (base n c : Nat) (hc : c < n)
    (hlen : base + n ≤ v.length) (x : T) (hx : v[base + c]? = some x) :
    ((v.drop base).take c ++ List.replicate (n - c) 0).set c x
      = (v.drop base).take (c + 1) ++ List.replicate (n - (c + 1)) 0 := by
  apply List.ext_getElem?
  intro k
  have hl1 : ((v.drop base).take c).length = c := by
    rw [List.length_take, List.length_drop]; omega
  have hl2 : ((v.drop base).take (c + 1)).length = c + 1 := by
    rw [List.length_take, List.length_drop]; omega
  rw [List.getElem?_set]
  by_cases hk : c = k
  · subst hk
    rw [if_pos rfl, if_pos (by rw [List.length_append, hl1, List.length_replicate]; omega),
      List.getElem?_append_left (by omega), List.getElem?_take, if_pos (by omega),
      List.getElem?_drop, hx]
  · rw [if_neg hk]
    by_cases hlt : k < c
    · rw [List.getElem?_append_left (by omega), List.getElem?_append_left (by omega),
        List.getElem?_take, List.getElem?_take, if_pos hlt, if_pos (by omega)]
    · rw [List.getElem?_append_right (by omega), List.getElem?_append_right (by omega), hl1, hl2,
        List.getElem?_replicate, List.getElem?_replicate]
      by_cases hkn : k < n
      · rw [if_pos (by omega), if_pos (by omega)]
      · rw [if_neg (by omega), if_neg (by omega)]

theorem toNat_flat3 (L E1 E2 i j : Nat) :
    (((L : Int) * E1 + i) * E2 + j).toNat = L * (E1 * E2) + (i * E2 + j) := by
  have h : (((L : Int) * E1 + i) * E2 + j) = ((L * (E1 * E2) + (i * E2 + j) : Nat) : Int) := by
    push_cast; ring
  rw [h, Int.toNat_natCast]

theorem toNat_flat2 (E2 i j : Nat) : ((E2 : Int) * i + j).toNat = i * E2 + j := by
  have h : ((E2 : Int) * i + j) = ((i * E2 + j : Nat) : Int) := by
    push_cast; ring
  rw [h, Int.toNat_natCast]

theorem store_fresh {T : Type} (h : Heap T) (c : vector_cell T) (w : List T) :
    Heap.store (h ++ [c]) h.length w = h ++ [⟨c.deleted, w⟩] := by
  rw [store_of_cell _ _ c _ (by simp)]
  simp

theorem deref_append {T : Type} (h : Heap T) (c : vector_cell T) (q : Option Nat)
    (r : Nat × List T) (hr : h.deref q = .ok r) : Heap.deref (h ++ [c]) q = .ok r := by
  obtain ⟨hq, c0, hc, hce⟩ := deref_eq_ok hr
  have hlt : r.1 < h.length := (List.getElem?_eq_some_iff.mp hc).1
  rw [hq]
  have := deref_some (h ++ [c]) r.1 c0 (by rw [List.getElem?_append_left hlt]; exact hc)
  rw [this, hce]

/-- One iteration of the inner loop of `get_l_data`: the statement
`a(i, j) = _data(l, i, j)` on the state in which the `i * E2 + j` first
elements of the slice have been copied. -/
theorem get_l_data_step {R : Type} [Zero R] (_data : multi_array R 3) (a : multi_array R 2)
    (h : Heap R) (p : Nat) (v : List R) (E0 E1 E2 L i j : Nat)
    (hv : h.deref _data.p_data_ = .ok (p, v))
    (he1 : _data.extents_ 1 = E1) (he2 : _data.extents_ 2 = E2)
    (hlen : v.length = E0 * E1 * E2) (hfit : E0 * E1 * E2 < 2147483648)
    (hL : L < E0) (ha : a.p_data_ = some h.length) (hae : a.extents_ 1 = E2)
    (hi : i < E1) (hj : j < E2) :
    (match _data.at3 (h ++ [(⟨false, (v.drop (L * (E1 * E2))).take (i * E2 + j)
          ++ List.replicate (E1 * E2 - (i * E2 + j)) 0⟩ : vector_cell R)]) L i j with
      | .error e => (.error e : Except Err (Heap R))
      | .ok x => a.set2 (h ++ [(⟨false, (v.drop (L * (E1 * E2))).take (i * E2 + j)
          ++ List.replicate (E1 * E2 - (i * E2 + j)) 0⟩ : vector_cell R)]) i j x)
      = .ok (h ++ [(⟨false, (v.drop (L * (E1 * E2))).take (i * E2 + j + 1)
          ++ List.replicate (E1 * E2 - (i * E2 + j + 1)) 0⟩ : vector_cell R)]) := by
  have hE0 : 1 ≤ E0 := by omega
  have hP : E1 * E2 ≤ E0 * E1 * E2 := by
    have := Nat.mul_le_mul_right (E1 * E2) hE0
    rw [one_mul, ← mul_assoc] at this
    exact this
  have hbase : L * (E1 * E2) + E1 * E2 ≤ v.length := by
    have := Nat.mul_le_mul_right (E1 * E2) (by omega : L + 1 ≤ E0)
    rw [hlen, mul_assoc]
    calc L * (E1 * E2) + E1 * E2 = (L + 1) * (E1 * E2) := by ring
      _ ≤ E0 * (E1 * E2) := this
  have hc : i * E2 + j < E1 * E2 := by
    have := Nat.mul_le_mul_right E2 (by omega : i + 1 ≤ E1)
    calc i * E2 + j < i * E2 + E2 := by omega
      _ = (i + 1) * E2 := by ring
      _ ≤ E1 * E2 := this
  have hE12 : E1 < 2147483648 ∧ E2 < 2147483648 := by
    have h1 : E1 ≤ E1 * E2 := Nat.le_mul_of_pos_right E1 (by omega)
    have h2 : E2 ≤ E1 * E2 := Nat.le_mul_of_pos_left E2 (by omega)
    omega
  -- the read `_data(l, i, j)`
  have hv1 := deref_append h ⟨false, (v.drop (L * (E1 * E2))).take (i * E2 + j)
    ++ List.replicate (E1 * E2 - (i * E2 + j)) 0⟩ _ _ hv
  obtain ⟨hidx, hlt⟩ := rank3_access _data _ p v (E0 : Int) (E1 : Int) (E2 : Int) (L : Int)
    (i : Int) (j : Int) hv1
    (by rw [he1, to_size_t_natCast (by omega)]) (by rw [he2, to_size_t_natCast (by omega)])
    (by rw [hlen]; push_cast; rfl) (by exact_mod_cast hfit)
    ⟨by omega, by exact_mod_cast hL⟩ ⟨by omega, by exact_mod_cast hi⟩
    ⟨by omega, by exact_mod_cast hj⟩
  rw [toNat_flat3] at hidx hlt
  have hread : _data.at3 (h ++ [⟨false, (v.drop (L * (E1 * E2))).take (i * E2 + j)
      ++ List.replicate (E1 * E2 - (i * E2 + j)) 0⟩]) L i j
      = .ok (v[L * (E1 * E2) + (i * E2 + j)]) := by
    unfold multi_array.at3
    rw [hidx, read_ok _ _ _ _ _ hv1, List.getElem?_eq_getElem hlt]
  rw [hread]
  simp only
  -- the write `a(i, j) = x`
  have hv2 : Heap.deref (h ++ [(⟨false, (v.drop (L * (E1 * E2))).take (i * E2 + j)
      ++ List.replicate (E1 * E2 - (i * E2 + j)) 0⟩ : vector_cell R)]) a.p_data_
      = .ok (h.length, (v.drop (L * (E1 * E2))).take (i * E2 + j)
      ++ List.replicate (E1 * E2 - (i * E2 + j)) 0) := by
    rw [ha]; exact deref_fresh h _
  have hwl : ((v.drop (L * (E1 * E2))).take (i * E2 + j)
      ++ List.replicate (E1 * E2 - (i * E2 + j)) (0 : R)).length = E1 * E2 := by
    rw [List.length_append, List.length_take, List.length_drop, List.length_replicate]
    omega
  obtain ⟨hidx2, -⟩ := rank2_access a _ h.length _ (E1 : Int) (E2 : Int) (i : Int) (j : Int) hv2
    (by rw [hae, to_size_t_natCast (by omega)])
    (by rw [hwl]; push_cast; rfl) (by exact_mod_cast (by omega : E1 * E2 < 2147483648))
    ⟨by omega, by exact_mod_cast hi⟩ ⟨by omega, by exact_mod_cast hj⟩
  rw [toNat_flat2] at hidx2
  unfold multi_array.set2
  rw [hidx2, write_ok _ _ _ _ _ _ hv2, store_fresh,
    slice_fill_step v _ _ _ hc hbase _ (List.getElem?_eq_getElem hlt)]

/-- The result of `get_l_data` on a rank-3 array with extents
`(E0, E1, E2)`, all below `2^31` with a product below `2^31`, whose vector `v`
has `E0 * E1 * E2` elements, for a slice index `L` below `E0`. -/
theorem get_l_data_eq {R : Type} [Zero R] (_data : multi_array R 3) (h : Heap R) (p : Nat)
    (v : List R) (E0 E1 E2 L : Nat) (hv : h.deref _data.p_data_ = .ok (p, v))
    (he1 : _data.extents_ 1 = E1) (he2 : _data.extents_ 2 = E2)
    (hlen : v.length = E0 * E1 * E2) (hfit : E0 * E1 * E2 < 2147483648)
    (hE1 : E1 < 2147483648) (hE2 : E2 < 2147483648) (hL : L < E0) :
    basis.get_l_data (L : Int) _data h
      = .ok (⟨true, some h.length, ![E1, E2]⟩,
          h ++ [⟨false, (v.drop (L * (E1 * E2))).take (E1 * E2)⟩]) := by
  have hE0 : 1 ≤ E0 := by omega
  have hP : E1 * E2 < 2147483648 := by
    have := Nat.mul_le_mul_right (E1 * E2) hE0
    rw [one_mul, ← mul_assoc] at this
    omega
  unfold basis.get_l_data
  rw [he1, he2, to_int_of_lt hE1, to_int_of_lt hE2,
    init2_ok (E1 : Int) (E2 : Int) h (by omega) (by omega) (by exact_mod_cast hP),
    to_size_t_natCast (by omega), to_size_t_natCast (by omega)]
  simp only
  have hprod : ((E1 : Int) * (E2 : Int)).toNat = E1 * E2 := by
    rw [← Nat.cast_mul, Int.toNat_natCast]
  rw [hprod]
  obtain ⟨s1, hloop, hq⟩ := for_int_inv
    (fun (i : Int) (h1 : Heap R) =>
      basis.for_int (fun (j : Int) (h2 : Heap R) =>
        match _data.at3 h2 (L : Int) i j with
        | .error e => (.error e : Except Err (Heap R))
        | .ok x => multi_array.set2 (⟨true, some h.length, ![E1, E2]⟩ : multi_array R 2) h2 i j x)
        E2 0 h1)
    (fun i (s : Heap R) => s = h ++ [(⟨false, (v.drop (L * (E1 * E2))).take (i * E2)
          ++ List.replicate (E1 * E2 - (i * E2)) 0⟩ : vector_cell R)])
    E1 hE1
    (by
      intro i s hi hs
      subst hs
      obtain ⟨s2, hin, hq2⟩ := for_int_inv
        (fun (j : Int) (h2 : Heap R) =>
          match _data.at3 h2 (L : Int) (i : Int) j with
          | .error e => (.error e : Except Err (Heap R))
          | .ok x => multi_array.set2 (⟨true, some h.length, ![E1, E2]⟩ : multi_array R 2)
              h2 (i : Int) j x)
        (fun j (s : Heap R) => s = h ++ [(⟨false, (v.drop (L * (E1 * E2))).take (i * E2 + j)
          ++ List.replicate (E1 * E2 - (i * E2 + j)) 0⟩ : vector_cell R)])
        E2 hE2
        (by
          intro j s hj hs
          subst hs
          exact ⟨_, get_l_data_step _data _ h p v E0 E1 E2 L i j hv he1 he2 hlen hfit hL rfl rfl
            hi hj, rfl⟩)
        E2 0 (h ++ [(⟨false, (v.drop (L * (E1 * E2))).take (i * E2)
          ++ List.replicate (E1 * E2 - (i * E2)) 0⟩ : vector_cell R)]) (by omega) (by simp)
      refine ⟨s2, hin, ?_⟩
      rw [hq2]
      have : i * E2 + E2 = (i + 1) * E2 := by ring
      rw [this])
    E1 0 (h ++ [(⟨false, List.replicate (E1 * E2) 0⟩ : vector_cell R)]) (by omega) (by simp)
  rw [hloop]
  simp only
  rw [hq]
  simp

/-- C14 (as stated, refuted): the rank-3 array loaded from
`wide_empty_dataset` has the extents `(1, 0, 2^31)` and `l = 0` is in `[0, 1)`;
`get_l_data(0, data)` returns an array whose second extent is
`2^64 - 2^31`, not `2^31`: the extent does not survive the conversion to the
`int` parameter of the constructor. -/
theorem slice_extent_not_kept :
    (internal.load_multi_array 3 wide_empty_dataset []).bind (fun r =>
      (basis.get_l_data 0 r.1 r.2).map (fun a =>
        (r.1.extent 0, r.1.extent 1, r.1.extent 2, a.1.extent 0, a.1.extent 1)))
      = .ok (.ok 1, .ok 0, .ok 2147483648, .ok 0, .ok 18446744071562067968) := by
  decide

/-- C14 (amended): for every rank-3 array `data` with extents `(E0, E1, E2)`,
where `E1`, `E2` and the product `E0 * E1 * E2` fit in a signed 32-bit `int`,
whose vector `v` has `E0 * E1 * E2` elements, and every `l` in `[0, E0)`,
`get_l_data(l, data)` returns an owning rank-2 array with extents `(E1, E2)`
on a new vector; that vector is the range `[l*E1*E2, (l+1)*E1*E2)` of `v`; the
element `(i, j)` of the slice is `data(l, i, j)` for `0 <= i < E1` and
`0 <= j < E2`; and `data` and every vector that existed are unchanged. -/
theorem get_l_data_slice {R : Type} [Zero R] (_data : multi_array R 3) (h : Heap R) (p : Nat)
    (v : List R) (E0 E1 E2 : Nat) (l : Int) (hv : h.deref _data.p_data_ = .ok (p, v))
    (_he0 : _data.extents_ 0 = E0) (he1 : _data.extents_ 1 = E1)
    (he2 : _data.extents_ 2 = E2)
    (hlen : v.length = E0 * E1 * E2) (hfit : E0 * E1 * E2 < 2147483648)
    (hE1 : E1 < 2147483648) (hE2 : E2 < 2147483648) (hl : 0 ≤ l ∧ l < E0) :
    ∃ a h1, basis.get_l_data l _data h = .ok (a, h1)
      ∧ a.view = false ∧ a.extent 0 = .ok E1 ∧ a.extent 1 = .ok E2
      ∧ h1 = h ++ [⟨false, (v.drop (l.toNat * (E1 * E2))).take (E1 * E2)⟩]
      ∧ h1.deref a.p_data_ = .ok (h.length, (v.drop (l.toNat * (E1 * E2))).take (E1 * E2))
      ∧ a.num_elements h1 = .ok (E1 * E2)
      ∧ h1.deref _data.p_data_ = .ok (p, v)
      ∧ ∀ i j : Int, 0 ≤ i ∧ i < E1 → 0 ≤ j ∧ j < E2 →
          a.at2 h1 i j = _data.at3 h l i j ∧ ∃ x, _data.at3 h l i j = .ok x := by
  obtain ⟨hl0, hl1⟩ := hl
  lift l to ℕ using hl0
  have hL : l < E0 := by exact_mod_cast hl1
  have hE0 : 1 ≤ E0 := by omega
  have hP : E1 * E2 < 2147483648 := by
    have := Nat.mul_le_mul_right (E1 * E2) hE0
    rw [one_mul, ← mul_assoc] at this
    omega
  have hbase : l * (E1 * E2) + E1 * E2 ≤ v.length := by
    have := Nat.mul_le_mul_right (E1 * E2) (by omega : l + 1 ≤ E0)
    rw [hlen, mul_assoc]
    calc l * (E1 * E2) + E1 * E2 = (l + 1) * (E1 * E2) := by ring
      _ ≤ E0 * (E1 * E2) := this
  have hsl : ((v.drop (l * (E1 * E2))).take (E1 * E2)).length = E1 * E2 := by
    rw [List.length_take, List.length_drop]; omega
  have hd : Heap.deref (h ++ [(⟨false, (v.drop (l * (E1 * E2))).take (E1 * E2)⟩ : vector_cell R)])
      (some h.length) = .ok (h.length, (v.drop (l * (E1 * E2))).take (E1 * E2)) :=
    deref_fresh h _
  refine ⟨_, _, get_l_data_eq _data h p v E0 E1 E2 l hv he1 he2 hlen hfit hE1 hE2 hL, rfl, rfl, rfl,
    by rw [Int.toNat_natCast], by rw [Int.toNat_natCast]; exact hd, ?_, deref_append h _ _ _ hv, ?_⟩
  · unfold multi_array.num_elements
    rw [hd]
    simp only [Except.map, hsl]
  · intro i j hi hj
    obtain ⟨hi0, hi1⟩ := hi
    obtain ⟨hj0, hj1⟩ := hj
    lift i to ℕ using hi0
    lift j to ℕ using hj0
    have hi2 : i < E1 := by exact_mod_cast hi1
    have hj2 : j < E2 := by exact_mod_cast hj1
    have hc : i * E2 + j < E1 * E2 := by
      have := Nat.mul_le_mul_right E2 (by omega : i + 1 ≤ E1)
      calc i * E2 + j < i * E2 + E2 := by omega
        _ = (i + 1) * E2 := by ring
        _ ≤ E1 * E2 := this
    obtain ⟨hidx, hlt⟩ := rank3_access _data h p v (E0 : Int) (E1 : Int) (E2 : Int) (l : Int)
      (i : Int) (j : Int) hv
      (by rw [he1, to_size_t_natCast (by omega)]) (by rw [he2, to_size_t_natCast (by omega)])
      (by rw [hlen]; push_cast; rfl) (by exact_mod_cast hfit)
      ⟨by omega, hl1⟩ ⟨by omega, hi1⟩ ⟨by omega, hj1⟩
    rw [toNat_flat3] at hidx hlt
    have hread : _data.at3 h (l : Int) (i : Int) (j : Int)
        = .ok (v[l * (E1 * E2) + (i * E2 + j)]) := by
      unfold multi_array.at3
      rw [hidx, read_ok _ _ _ _ _ hv, List.getElem?_eq_getElem hlt]
    obtain ⟨hidx2, -⟩ := rank2_access (⟨true, some h.length, ![E1, E2]⟩ : multi_array R 2)
      _ h.length _ (E1 : Int) (E2 : Int) (i : Int) (j : Int) hd
      (by rw [to_size_t_natCast (by omega)]; rfl)
      (by rw [hsl]; push_cast; rfl) (by exact_mod_cast hP)
      ⟨by omega, hi1⟩ ⟨by omega, hj1⟩
    rw [toNat_flat2] at hidx2
    refine ⟨?_, _, hread⟩
    rw [hread]
    unfold multi_array.at2
    rw [hidx2, read_ok _ _ _ _ _ hd, List.getElem?_take, if_pos hc, List.getElem?_drop,
      List.getElem?_eq_getElem hlt]

/-- C14 (amended), an instance: the array `demo_coefficients` with extents
`(2, 2, 3)` and the slice `1`, whose vector is `6, ..., 11`. -/
theorem get_l_data_slice_witness :
    (demo_coefficients.2.deref demo_coefficients.1.p_data_
        = .ok (0, [0, 1, 2, 3, 4, 5, 6, 7, 8, 9, 10, 11])
      ∧ (0 ≤ (1 : Int) ∧ (1 : Int) < (2 : Nat)) ∧ 2 * 2 * 3 < 2147483648)
    ∧ ∃ a h1, basis.get_l_data 1 demo_coefficients.1 demo_coefficients.2 = .ok (a, h1)
      ∧ h1.deref a.p_data_ = .ok (1, [6, 7, 8, 9, 10, 11]) := by
  refine ⟨⟨by decide, by decide, by decide⟩, ?_⟩
  obtain ⟨a, h1, hg, -, -, -, -, hd, -, -, -⟩ :=
    get_l_data_slice demo_coefficients.1 demo_coefficients.2 0
      [0, 1, 2, 3, 4, 5, 6, 7, 8, 9, 10, 11] 2 2 3 1 (by decide) rfl rfl rfl rfl (by decide)
      (by decide) (by decide) (by decide)
  exact ⟨a, h1, hg, hd⟩

/-! ## C15: the basis index in the evaluators -/

/-- The rank-3 offset, evaluated in `size_t` and converted to `int`, is the
mathematical offset whenever that is an `int`. -/
theorem flat3_of_int_range (i j k : Int) (e1 e2 : Nat)
    (hoff : in_int_range ((i * e1 + j) * e2 + k)) :
    to_int (((to_size_t i * e1 + to_size_t j) * e2 + to_size_t k) % 18446744073709551616)
      = (i * e1 + j) * e2 + k := by
  have h1 := to_int_emod (((to_size_t i * e1 + to_size_t j) * e2 + to_size_t k)
    % 18446744073709551616)
  have h2 : ((((to_size_t i * e1 + to_size_t j) * e2 + to_size_t k) % 18446744073709551616 : Nat)
      : Int) % 4294967296
      = (((to_size_t i * e1 + to_size_t j) * e2 + to_size_t k : Nat) : Int) % 4294967296 := by
    omega
  have hi : Int.ModEq 4294967296 ((to_size_t i : Nat) : Int) i := to_size_t_emod i
  have hj : Int.ModEq 4294967296 ((to_size_t j : Nat) : Int) j := to_size_t_emod j
  have hk : Int.ModEq 4294967296 ((to_size_t k : Nat) : Int) k := to_size_t_emod k
  have h3 : Int.ModEq 4294967296
      ((((to_size_t i * e1 + to_size_t j) * e2 + to_size_t k : Nat)) : Int)
      ((i * e1 + j) * e2 + k) := by
    push_cast
    exact Int.ModEq.add (Int.ModEq.mul (Int.ModEq.add (Int.ModEq.mul hi rfl) hj) rfl) hk
  have h4 := to_int_range (((to_size_t i * e1 + to_size_t j) * e2 + to_size_t k)
    % 18446744073709551616)
  unfold Int.ModEq at h3
  unfold in_int_range at hoff h4
  omega

/-- A loop stops with the error of its first iteration. -/
theorem for_int_first_error {σ : Type} (body : Int → σ → Except Err σ) (fuel : Nat) (s : σ)
    (e : Err) (hb : body (0 : Nat) s = .error e) :
    basis.for_int body (fuel + 1) 0 s = .error e := by
  unfold basis.for_int
  rw [hb]

/-- The member `get_l_data` fails the assertion of its first element access
when the array has non-empty slices and `l` is outside `[0, E0)`, the offset
`l * E1 * E2` being an `int`. -/
theorem get_l_data_rejects {R : Type} [Zero R] (_data : multi_array R 3) (h : Heap R) (p : Nat)
    (v : List R) (E0 E1 E2 : Nat) (l : Int) (hv : h.deref _data.p_data_ = .ok (p, v))
    (he1 : _data.extents_ 1 = E1) (he2 : _data.extents_ 2 = E2)
    (hlen : v.length = E0 * E1 * E2) (h1 : 1 ≤ E1) (h2 : 1 ≤ E2)
    (hP : E1 * E2 < 2147483648) (hl : l < 0 ∨ (E0 : Int) ≤ l)
    (hoff : in_int_range (l * E1 * E2)) :
    basis.get_l_data l _data h = .error .assertion_failed := by
  have hE1 : E1 < 2147483648 := by
    have : E1 ≤ E1 * E2 := Nat.le_mul_of_pos_right E1 (by omega)
    omega
  have hE2 : E2 < 2147483648 := by
    have : E2 ≤ E1 * E2 := Nat.le_mul_of_pos_left E2 (by omega)
    omega
  unfold basis.get_l_data
  rw [he1, he2, to_int_of_lt hE1, to_int_of_lt hE2,
    init2_ok (E1 : Int) (E2 : Int) h (by omega) (by omega) (by exact_mod_cast hP)]
  simp only
  obtain ⟨k1, rfl⟩ : ∃ k, E1 = k + 1 := ⟨E1 - 1, by omega⟩
  obtain ⟨k2, rfl⟩ : ∃ k, E2 = k + 1 := ⟨E2 - 1, by omega⟩
  have hflat := flat3_of_int_range l 0 0 (k1 + 1) (k2 + 1) (by
    have : (l * ((k1 + 1 : Nat) : Int) + 0) * ((k2 + 1 : Nat) : Int) + 0
        = l * ((k1 + 1 : Nat) : Int) * ((k2 + 1 : Nat) : Int) := by ring
    rw [this]; exact hoff)
  have hrw : (l * ((k1 + 1 : Nat) : Int) + 0) * ((k2 + 1 : Nat) : Int) + 0
      = l * ((k1 + 1 : Nat) : Int) * ((k2 + 1 : Nat) : Int) := by ring
  rw [hrw] at hflat
  have hbad : l * ((k1 + 1 : Nat) : Int) * ((k2 + 1 : Nat) : Int) < 0
      ∨ (v.length : Int) ≤ l * ((k1 + 1 : Nat) : Int) * ((k2 + 1 : Nat) : Int) := by
    have hpos : (1 : Int) ≤ ((k1 + 1 : Nat) : Int) * ((k2 + 1 : Nat) : Int) := by
      have : (1 : Nat) ≤ (k1 + 1) * (k2 + 1) := Nat.mul_pos (by omega) (by omega)
      exact_mod_cast this
    rw [mul_assoc]
    rcases hl with hneg | hge
    · left
      have : l * (((k1 + 1 : Nat) : Int) * ((k2 + 1 : Nat) : Int)) ≤ l * 1 :=
        mul_le_mul_of_nonpos_left hpos (by omega)
      omega
    · right
      rw [hlen]
      push_cast
      have : (E0 : Int) * ((k1 + 1 : Int) * (k2 + 1 : Int))
          ≤ l * ((k1 + 1 : Int) * (k2 + 1 : Int)) :=
        mul_le_mul_of_nonneg_right hge (by push_cast at hpos; omega)
      have h3 : (E0 : Int) * ((k1 : Int) + 1) * ((k2 : Int) + 1)
          = (E0 : Int) * ((k1 + 1 : Int) * (k2 + 1 : Int)) := by ring
      rw [h3]
      exact this
  have hfirst : ∀ s : Heap R, s.deref _data.p_data_ = .ok (p, v) →
      _data.at3 s l ((0 : Nat) : Int) ((0 : Nat) : Int) = .error .assertion_failed := by
    intro s hs
    unfold multi_array.at3 multi_array.idx3
    rw [he1, he2]
    simp only [Nat.cast_zero]
    rw [hflat]
    exact (read_checked_fails_iff _data s _ p v hs hoff).mpr hbad
  rw [for_int_first_error _ k1 _ .assertion_failed]
  rw [for_int_first_error _ k2 _ .assertion_failed]
  rw [hfirst _ (deref_append h _ _ _ hv)]

/-- The members `ulx` and `vly` on any state of a basis; they do not compare
`l` with `dim()`.  When the coefficient tensor of the family has the extents
`(E0, E1, E2)` with `E1` and `E2` at least `1`, `E1 * E2` below `2^31`, and
`E0 * E1 * E2` elements, they fail the assertion of the element access for
every `l` outside `[0, E0)` for which `l * E1 * E2` is an `int`, whatever `x`
and `_interpolate` are. -/
theorem evaluators_reject_index {R : Type} [LinearOrderedRing R]
    (interp : R → (Fin 2 → Nat) × List R → (Fin 1 → Nat) × List Int → Except Err R)
    (b : basis R) (m : Mem R) (d : multi_array R 3) (p : Nat) (v : List R) (E0 E1 E2 : Nat)
    (l : Int) (x : R) (hv : m.d.deref d.p_data_ = .ok (p, v))
    (_he0 : d.extents_ 0 = E0) (he1 : d.extents_ 1 = E1) (he2 : d.extents_ 2 = E2)
    (hlen : v.length = E0 * E1 * E2) (h1 : 1 ≤ E1) (h2 : 1 ≤ E2)
    (hP : E1 * E2 < 2147483648) (hl : l < 0 ∨ (E0 : Int) ≤ l)
    (hoff : in_int_range (l * E1 * E2)) :
    (b.ulx_.data = d → basis.ulx interp b m l x = .error .assertion_failed)
      ∧ (b.vly_.data = d → basis.vly interp b m l x = .error .assertion_failed) := by
  have hg := get_l_data_rejects d m.d p v E0 E1 E2 l hv he1 he2 hlen h1 h2 hP hl hoff
  have hcall : ∀ (y : R) (e : multi_array Int 1),
      basis._interpolate interp m y l d e = .error .assertion_failed := by
    intro y e
    unfold basis._interpolate
    rw [hg]
  constructor
  · intro hd
    unfold basis.ulx
    rw [hd]
    split
    · exact hcall _ _
    · rw [hcall]; rfl
  · intro hd
    unfold basis.vly
    rw [hd]
    split
    · exact hcall _ _
    · rw [hcall]; rfl

theorem delete_length {T : Type} (h : Heap T) (p : Nat) : (h.delete p).length = h.length := by
  unfold Heap.delete
  simp

/-- An assignment from an owner that returns yields an owner whose pointer is
the address of a vector, and removes no vector from the free store. -/
theorem assign_ok_inv {T : Type} {DIM : Nat} (this other : multi_array T DIM) (h : Heap T)
    (r : multi_array T DIM × Heap T) (ho : other.owner_ = true)
    (hr : this.assign other h = .ok r) :
    r.1.owner_ = true ∧ (∃ p, r.1.p_data_ = some p ∧ p < r.2.length) ∧ h.length ≤ r.2.length := by
  cases hp : this.p_data_ with
  | some p =>
    rw [assign_use_after_free this other h p hp ho] at hr
    cases hr
  | none =>
    unfold multi_array.assign at hr
    rw [ho, hp] at hr
    simp only [if_true] at hr
    split at hr
    · cases hr
    cases hr
    refine ⟨rfl, ⟨_, rfl, ?_⟩, ?_⟩
    · rw [store_length]; simp [Heap.new_vector]
    · rw [store_length]; simp [Heap.new_vector]

/-- A constructor with a count yields an owner on a new vector. -/
theorem new_sized_ok_inv {T : Type} [Zero T] (n : Int) (h : Heap T) (r : Nat × Heap T)
    (hr : multi_array.new_sized n h = .ok r) : r.1 = h.length ∧ r.2.length = h.length + 1 := by
  unfold multi_array.new_sized at hr
  split at hr
  · cases hr
  split at hr
  · cases hr
  cases hr
  exact ⟨rfl, by simp [Heap.new_vector]⟩

/-- Adding an owner on a new vector keeps the world owned. -/
theorem owned_push {T : Type} (w : World T) (hw : w.owned) (d : Nat) (a : multi_array T d)
    (h1 : Heap T) (ho : a.owner_ = true) (hp : ∃ p, a.p_data_ = some p ∧ p < h1.length)
    (hlen : w.heap.length ≤ h1.length) :
    World.owned ⟨w.arrays ++ [⟨d, a⟩], h1⟩ := by
  intro e he
  simp only [List.mem_append, List.mem_singleton] at he
  rcases he with he | he
  · obtain ⟨h2, p, h3, h4⟩ := hw e he
    exact ⟨h2, p, h3, by show p < h1.length; omega⟩
  · subst he
    exact ⟨ho, hp⟩

/-- Replacing an array by an owner on a vector keeps the world owned. -/
theorem owned_set {T : Type} (w : World T) (hw : w.owned) (i d : Nat) (a : multi_array T d)
    (h1 : Heap T) (ho : a.owner_ = true) (hp : ∃ p, a.p_data_ = some p ∧ p < h1.length)
    (hlen : w.heap.length ≤ h1.length) :
    World.owned ⟨w.arrays.set i ⟨d, a⟩, h1⟩ := by
  intro e he
  rcases List.mem_or_eq_of_mem_set he with he | he
  · obtain ⟨h2, p, h3, h4⟩ := hw e he
    exact ⟨h2, p, h3, by show p < h1.length; omega⟩
  · subst he
    exact ⟨ho, hp⟩

/-- A write keeps the world owned. -/
theorem owned_write {T : Type} (w : World T) (hw : w.owned) (h1 : Heap T)
    (hlen : h1.length = w.heap.length) : World.owned ⟨w.arrays, h1⟩ := by
  intro e he
  obtain ⟨h2, p, h3, h4⟩ := hw e he
  exact ⟨h2, p, h3, by show p < h1.length; omega⟩

theorem init1_ok_inv {T : Type} [Zero T] {N1 : Int} {h : Heap T}
    {r : multi_array T 1 × Heap T} (hr : multi_array.init1 N1 h = .ok r) :
    r.1.owner_ = true ∧ r.1.p_data_ = some h.length ∧ r.2.length = h.length + 1 := by
  unfold multi_array.init1 at hr
  split at hr
  · cases hr
  rename_i q hq
  obtain ⟨h1, h2⟩ := new_sized_ok_inv _ _ _ hq
  cases hr
  exact ⟨rfl, by rw [← h1], h2⟩

theorem init3_ok_inv {T : Type} [Zero T] {N1 N2 N3 : Int} {h : Heap T}
    {r : multi_array T 3 × Heap T} (hr : multi_array.init3 N1 N2 N3 h = .ok r) :
    r.1.owner_ = true ∧ r.1.p_data_ = some h.length ∧ r.2.length = h.length + 1 := by
  unfold multi_array.init3 at hr
  split at hr
  · cases hr
  split at hr
  · cases hr
  rename_i q hq
  obtain ⟨h1, h2⟩ := new_sized_ok_inv _ _ _ hq
  cases hr
  exact ⟨rfl, by rw [← h1], h2⟩

/-- A `resize` that returns keeps the ownership flag and the pointer, and
keeps the number of vectors. -/
theorem resize_ok_inv {T : Type} [Zero T] {DIM : Nat} (a a1 : multi_array T DIM)
    (dims : Fin DIM → Nat) (h h1 : Heap T) (hr : a.resize dims h = (.ok (), a1, h1)) :
    a1.owner_ = a.owner_ ∧ a1.p_data_ = a.p_data_ ∧ h1.length = h.length := by
  unfold multi_array.resize at hr
  split at hr
  · cases hr
  split at hr
  · cases hr
  simp only at hr
  split at hr
  · cases hr
  cases hr
  exact ⟨rfl, rfl, store_length _ _ _⟩

theorem mem_of_getElem?_some {α : Type} {l : List α} {i : Nat} {a : α} (h : l[i]? = some a) :
    a ∈ l := by
  obtain ⟨hlt, heq⟩ := List.getElem?_eq_some_iff.mp h
  rw [← heq]
  exact List.getElem_mem hlt

/-- Every statement keeps the world owned. -/
theorem step_owned {T : Type} [Zero T] (w w1 : World T) (s : Stmt T) (hw : w.owned)
    (hs : step w s = .ok w1) : w1.owned := by
  cases s with
  | construct0 DIM junk =>
    simp only [step, init0_eq] at hs
    cases hs
    exact owned_push w hw _ _ _ rfl ⟨_, rfl, by simp⟩ (by simp)
  | construct1 N1 =>
    simp only [step] at hs
    split at hs
    · cases hs
    rename_i r hr
    cases hs
    obtain ⟨h1, h2, h3⟩ := init1_ok_inv hr
    exact owned_push w hw _ _ _ h1 ⟨_, h2, by omega⟩ (by omega)
  | construct2 N1 N2 =>
    simp only [step] at hs
    split at hs
    · cases hs
    rename_i r hr
    cases hs
    obtain ⟨h1, h2, h3, -⟩ := init2_eq_ok hr
    exact owned_push w hw _ _ _ h1 ⟨_, h2, by omega⟩ (by omega)
  | construct3 N1 N2 N3 =>
    simp only [step] at hs
    split at hs
    · cases hs
    rename_i r hr
    cases hs
    obtain ⟨h1, h2, h3⟩ := init3_ok_inv hr
    exact owned_push w hw _ _ _ h1 ⟨_, h2, by omega⟩ (by omega)
  | copy_construct src =>
    simp only [step] at hs
    split at hs
    swap
    · cases hs
    rename_i a ha
    split at hs
    · cases hs
    rename_i r hr
    cases hs
    have hmem : a ∈ w.arrays := mem_of_getElem?_some ha
    obtain ⟨h1, h2, h3⟩ := assign_ok_inv _ _ _ _ (hw a hmem).1 hr
    exact owned_push w hw _ _ _ h1 h2 h3
  | assign dst src =>
    simp only [step] at hs
    split at hs
    swap
    · cases hs
    rename_i a b ha hb
    split at hs
    swap
    · cases hs
    rename_i hd
    split at hs
    · cases hs
    rename_i r hr
    cases hs
    have hmem : b ∈ w.arrays := mem_of_getElem?_some hb
    have hbo : (hd ▸ b.2 : multi_array T a.1).owner_ = true := by
      obtain ⟨d, b2⟩ := b
      simp only at hd
      subst hd
      exact (hw _ hmem).1
    obtain ⟨h1, h2, h3⟩ := assign_ok_inv _ _ _ _ hbo hr
    exact owned_set w hw _ _ _ _ h1 h2 h3
  | resize arr dims =>
    simp only [step] at hs
    split at hs
    swap
    · cases hs
    rename_i a ha
    split at hs
    · cases hs
    rename_i a1 h1 hr
    cases hs
    have hmem : a ∈ w.arrays := mem_of_getElem?_some ha
    obtain ⟨h2, h3, h4⟩ := resize_ok_inv _ _ _ _ _ hr
    obtain ⟨h5, p, h6, h7⟩ := hw a hmem
    exact owned_set w hw _ _ _ _ (by rw [h2]; exact h5) ⟨p, by rw [h3]; exact h6, by omega⟩
      (by omega)
  | write1 arr i x =>
    simp only [step] at hs
    split at hs
    swap
    · cases hs
    split at hs
    · cases hs
    rename_i h1 hr
    cases hs
    exact owned_write w hw _ (write_length _ _ _ _ _ hr)
  | write2 arr i j x =>
    simp only [step] at hs
    split at hs
    swap
    · cases hs
    split at hs
    · cases hs
    rename_i h1 hr
    cases hs
    exact owned_write w hw _ (write_length _ _ _ _ _ hr)
  | write3 arr i j k x =>
    simp only [step] at hs
    split at hs
    swap
    · cases hs
    split at hs
    · cases hs
    rename_i h1 hr
    cases hs
    exact owned_write w hw _ (write_length _ _ _ _ _ hr)

/-- In a world of owners no assignment statement returns: the destination
holds a vector and the source is an owner, which is the use after free of
`operator=` (a statement that names a missing array or arrays of different
ranks is no C++ program). -/
theorem assign_step_never_returns {T : Type} [Zero T] (w w1 : World T) (dst src : Nat)
    (hw : w.owned) : step w (.assign dst src) ≠ .ok w1 := by
  intro hs
  simp only [step] at hs
  split at hs
  swap
  · cases hs
  rename_i a b ha hb
  split at hs
  swap
  · cases hs
  rename_i hd
  have hmema : a ∈ w.arrays := mem_of_getElem?_some ha
  have hmemb : b ∈ w.arrays := mem_of_getElem?_some hb
  have hbo : (hd ▸ b.2 : multi_array T a.1).owner_ = true := by
    obtain ⟨d, b2⟩ := b
    simp only at hd
    subst hd
    exact (hw _ hmemb).1
  obtain ⟨-, p, hp, -⟩ := hw a hmema
  rw [assign_use_after_free a.2 _ w.heap p hp hbo] at hs
  cases hs

/-- Every program keeps the world owned. -/
theorem run_owned {T : Type} [Zero T] (prog : List (Stmt T)) (w w1 : World T) (hw : w.owned)
    (hr : run prog w = .ok w1) : w1.owned := by
  induction prog generalizing w with
  | nil =>
    unfold run at hr
    cases hr
    exact hw
  | cons s rest ih =>
    unfold run at hr
    split at hr
    · cases hr
    rename_i w2 hs
    exact ih w2 (step_owned w w2 s hw hs) hr

/-- C16: every array produced from no objects by a finite sequence of
constructions (default, one, two or three extents), copy constructions,
assignments, resizes and element writes has `view() == false`; so none of
them is a view, `resize` never raises the error of a view on any of them, and
it returns whenever the product of the extents is below `2^31`.  (A program
that assigns to one of these arrays does not get to a final state, see
`assign_step_never_returns`, so the arrays of a final state come from the
other statements.) -/
theorem reachable_arrays_own {T : Type} [Zero T] (prog : List (Stmt T)) (w : World T)
    (hr : run prog ⟨[], []⟩ = .ok w) :
    ∀ a ∈ w.arrays, a.2.view = false
      ∧ (∀ dims, (a.2.resize dims w.heap).1 ≠ .error .runtime_error)
      ∧ (∀ dims, (List.ofFn dims).prod < 2147483648 → (a.2.resize dims w.heap).1 = .ok ()) := by
  have h0 : World.owned (⟨[], []⟩ : World T) := by
    intro a ha
    cases ha
  have hw := run_owned prog _ w h0 hr
  intro a ha
  obtain ⟨ho, p, hp, hlt⟩ := hw a ha
  have hc : w.heap[p]? = some (w.heap[p]) := List.getElem?_eq_getElem hlt
  refine ⟨by unfold multi_array.view; rw [ho]; rfl, ?_, ?_⟩
  · intro dims
    rw [resize_owner a.2 dims w.heap p _ ho hp hc]
    split
    · intro hcon; cases hcon
    · intro hcon; cases hcon
  · intro dims hfit
    rw [resize_of_fit a.2 dims w.heap p _ ho hp hc hfit]

/-- C16, an instance: the four arrays of `demo_program`. -/
theorem reachable_arrays_own_witness :
    run demo_program ⟨[], []⟩ = .ok demo_world
      ∧ demo_world.arrays.length = 4
      ∧ ∀ a ∈ demo_world.arrays, a.2.view = false := by
  have hb : run demo_program ⟨[], []⟩ = .ok demo_world := by rfl
  exact ⟨hb, by decide, fun a ha => (reachable_arrays_own demo_program demo_world hb a ha).1⟩
end irbasis
